import Mathlib

/-!
Verification development for the Wunderbots generation-and-caching pipeline.

The definitions below are a shallow embedding of the Python sources:
  * `src/server.py`    — slugifier, episode store, two-stage generation
                          orchestration, TTS endpoint audio-cache write path;
  * `src/generate_library.py` — batch generate-or-reuse, the audio walk
                          (`generate_audio_for_episode`);
  * `src/tts.py`       — voice pools and `build_expert_voice_map`.

Python strings are modelled on the ASCII fragment: in the slugifier the regex
class `\w` is read as `[A-Za-z0-9_]` and `\s` as ASCII whitespace.  External
capabilities (the LLM, the TTS backend, the JSON parser of the standard
library, base64 encoding) are parameters of the embedded functions, as the
specification treats them as external collaborators.
-/

namespace Wunderbots

/-! ### Slugifier

Embedding of `slugify` (src/server.py lines 20-24; an identical copy lives in
src/generate_library.py lines 21-25):

    t = text.lower().strip()
    t = re.sub(r'[^\w\s-]', '', t)
    t = re.sub(r'[\s_-]+', '-', t)
    return t[:60].strip('-')
-/

/-- Characters matched by the regex class `\w` (ASCII fragment). -/
def isWordCh (c : Char) : Bool := c.isAlphanum || c = '_'

/-- Characters matched by the regex class `[\s_-]` (ASCII fragment). -/
def isSepCh (c : Char) : Bool := c.isWhitespace || c = '_' || c = '-'

/-- Python `str.strip()` (no argument): remove leading and trailing
whitespace. -/
def pyStrip (l : List Char) : List Char :=
  ((l.dropWhile Char.isWhitespace).reverse.dropWhile Char.isWhitespace).reverse

/-- State machine for `re.sub(r'[\s_-]+', '-', t)`: a maximal run of
separator characters is replaced by a single hyphen.  The boolean says
whether we are currently inside a separator run. -/
def collapseGo : Bool → List Char → List Char
  | _, [] => []
  | inSep, c :: cs =>
    bif isSepCh c then
      (bif inSep then collapseGo true cs else '-' :: collapseGo true cs)
    else c :: collapseGo false cs

/-- `re.sub(r'[\s_-]+', '-', t)`. -/
def collapseSeps (l : List Char) : List Char := collapseGo false l

/-- Python `str.strip('-')`: remove leading and trailing hyphens. -/
def stripDashes (l : List Char) : List Char :=
  ((l.dropWhile (· == '-')).reverse.dropWhile (· == '-')).reverse

/-- The character class kept by `re.sub(r'[^\w\s-]', '', t)`. -/
def keepCh (c : Char) : Bool := isWordCh c || c.isWhitespace || c = '-'

/-- `slugify` from src/server.py lines 20-24 / src/generate_library.py
lines 21-25.  Stages, innermost first: `text.lower()`, `.strip()`,
`re.sub(r'[^\w\s-]', '', t)`, `re.sub(r'[\s_-]+', '-', t)`,
`t[:60].strip('-')`. -/
def slugify (s : String) : String :=
  String.mk (stripDashes
    ((collapseSeps ((pyStrip (s.data.map Char.toLower)).filter keepCh)).take 60))

/-! #### Structural Python string helpers

Lean's own `String.trim`/`String.splitOn` are defined by well-founded
recursion on byte positions and do not reduce in the kernel, so the
Python string operations the sources use are modelled by structural
functions on `List Char`. -/

/-- `Python str.strip()` on a `String`. -/
def pyStripStr (s : String) : String := String.mk (pyStrip s.data)

/-- Does `l` start with `sep`?  (`str.startswith`). -/
def listStarts : List Char → List Char → Bool
  | [], _ => true
  | _ :: _, [] => false
  | a :: as, b :: bs => a == b && listStarts as bs

/-- The remainder of `l` after the first occurrence of the (non-empty)
separator `sep`, or `none` if `sep` does not occur. -/
def afterFirstSub (sep : List Char) : List Char → Option (List Char)
  | [] => none
  | c :: rest =>
    if listStarts sep (c :: rest) then some ((c :: rest).drop sep.length)
    else afterFirstSub sep rest

/-- The prefix of `l` before the first occurrence of `sep` (all of `l` if
`sep` does not occur): `s.split(sep)[0]`. -/
def beforeFirstSub (sep : List Char) : List Char → List Char
  | [] => []
  | c :: rest =>
    if listStarts sep (c :: rest) then [] else c :: beforeFirstSub sep rest

/-- Python `sep in s` for a non-empty separator. -/
def containsSub (sep l : List Char) : Bool := (afterFirstSub sep l).isSome

/-- Split at the first occurrence of a single character:
`s.split(ch, 1)` when `ch` occurs. -/
def splitFirstChar (ch : Char) : List Char → Option (List Char × List Char)
  | [] => none
  | c :: rest =>
    if c = ch then some ([], rest)
    else (splitFirstChar ch rest).map (fun p => (c :: p.1, p.2))

/-- The prefix of `l` before the last occurrence of `sep`
(`s.rsplit(sep, 1)[0]`), or all of `l` if `sep` does not occur. -/
def beforeLastSub (sep l : List Char) : List Char :=
  match afterFirstSub sep.reverse l.reverse with
  | none => l
  | some r => r.reverse

/-! #### Slugifier lemmas -/

theorem toLower_not_upper (c : Char) : (Char.toLower c).isUpper = false := by
  unfold Char.toLower
  simp only
  by_cases h : c.toNat ≥ 65 ∧ c.toNat ≤ 90
  · rw [if_pos h]
    have hv : (c.toNat + 32).isValidChar := by
      unfold Nat.isValidChar
      left
      have : c.toNat ≤ 90 := h.2
      omega
    have hval : (Char.ofNat (c.toNat + 32)).toNat = c.toNat + 32 := by
      unfold Char.ofNat
      rw [dif_pos hv]
      rfl
    simp only [Char.isUpper]
    rw [Bool.and_eq_false_iff]
    right
    simp only [decide_eq_false_iff_not]
    intro hle
    have h2 : (Char.ofNat (c.toNat + 32)).val.toNat ≤ (90 : UInt32).toNat := hle
    have e90 : (90 : UInt32).toNat = 90 := rfl
    have : (Char.ofNat (c.toNat + 32)).val.toNat = c.toNat + 32 := hval
    omega
  · rw [if_neg h]
    simp only [Char.isUpper]
    rw [Bool.and_eq_false_iff]
    rcases Nat.lt_or_ge c.toNat 65 with h1 | h1
    · left
      simp only [decide_eq_false_iff_not]
      intro hle
      have h2 : (65 : UInt32).toNat ≤ c.val.toNat := hle
      have e65 : (65 : UInt32).toNat = 65 := rfl
      simp only [Char.toNat] at h1
      omega
    · right
      simp only [decide_eq_false_iff_not]
      intro hle
      have h2 : c.val.toNat ≤ (90 : UInt32).toNat := hle
      have e90 : (90 : UInt32).toNat = 90 := rfl
      exact h ⟨h1, by simp only [Char.toNat]; omega⟩

theorem mem_collapseGo (b : Bool) (l : List Char) (c : Char)
    (h : c ∈ collapseGo b l) : c = '-' ∨ (c ∈ l ∧ isSepCh c = false) := by
  induction l generalizing b with
  | nil => simp [collapseGo] at h
  | cons x xs ih =>
    cases hx : isSepCh x with
    | true =>
      cases b with
      | true =>
        simp only [collapseGo, hx, cond_true] at h
        rcases ih true h with h' | h'
        · exact Or.inl h'
        · exact Or.inr ⟨List.mem_cons_of_mem _ h'.1, h'.2⟩
      | false =>
        simp only [collapseGo, hx, cond_true, cond_false] at h
        rcases List.mem_cons.1 h with h' | h'
        · exact Or.inl h'
        · rcases ih true h' with h'' | h''
          · exact Or.inl h''
          · exact Or.inr ⟨List.mem_cons_of_mem _ h''.1, h''.2⟩
    | false =>
      simp only [collapseGo, hx, cond_false] at h
      rcases List.mem_cons.1 h with h' | h'
      · subst h'
        exact Or.inr ⟨List.mem_cons_self _ _, hx⟩
      · rcases ih false h' with h'' | h''
        · exact Or.inl h''
        · exact Or.inr ⟨List.mem_cons_of_mem _ h''.1, h''.2⟩

/-- The relation "not two hyphens in a row". -/
def NoDD (a b : Char) : Prop := a ≠ '-' ∨ b ≠ '-'

theorem collapseGo_chain (l : List Char) :
    ∀ b, (collapseGo b l).Chain' NoDD ∧
      ((collapseGo true l).head? = some '-' → False) := by
  induction l with
  | nil =>
    intro b
    exact ⟨by simp [collapseGo], by simp [collapseGo]⟩
  | cons x xs ih =>
    intro b
    cases hx : isSepCh x with
    | true =>
      constructor
      · cases b with
        | true =>
          simp only [collapseGo, hx, cond_true]
          exact (ih true).1
        | false =>
          simp only [collapseGo, hx, cond_true, cond_false]
          rw [List.chain'_cons']
          refine ⟨?_, (ih true).1⟩
          intro y hy
          right
          intro hy'
          subst hy'
          exact (ih true).2 hy
      · simp only [collapseGo, hx, cond_true]
        intro hh
        exact (ih true).2 hh
    | false =>
      constructor
      · simp only [collapseGo, hx, cond_false]
        rw [List.chain'_cons']
        refine ⟨?_, (ih false).1⟩
        intro y _
        left
        intro hx'
        subst hx'
        simp [isSepCh] at hx
      · simp only [collapseGo, hx, cond_false]
        intro hh
        simp only [List.head?_cons, Option.some.injEq] at hh
        subst hh
        simp [isSepCh] at hx

/-- `stripDashes l` is a prefix of `l.dropWhile (· == '-')`. -/
theorem stripDashes_prefix_dropWhile (l : List Char) :
    (stripDashes l) <+: (l.dropWhile (· == '-')) := by
  have h := List.reverse_prefix.mpr
    (List.dropWhile_suffix (l := (l.dropWhile (· == '-')).reverse) (· == '-'))
  rw [List.reverse_reverse] at h
  exact h

/-- `stripDashes` output is an infix of its input. -/
theorem stripDashes_within (l : List Char) : (stripDashes l) <:+: l := by
  have h1 : (l.dropWhile (· == '-')) <:+ l := List.dropWhile_suffix _
  have h2 := stripDashes_prefix_dropWhile l
  rcases h1 with ⟨u, hu⟩
  rcases h2 with ⟨v, hv⟩
  refine ⟨u, v, ?_⟩
  rw [List.append_assoc, hv, hu]

theorem stripDashes_head (l : List Char) (c : Char)
    (h : (stripDashes l).head? = some c) : c ≠ '-' := by
  rcases stripDashes_prefix_dropWhile l with ⟨t, ht⟩
  have hh : (l.dropWhile (· == '-')).head? = some c := by
    rw [← ht, List.head?_append, h]
    rfl
  have h2 := List.head?_dropWhile_not (· == '-') l
  rw [hh] at h2
  intro hc
  subst hc
  simp at h2

theorem stripDashes_last (l : List Char) (c : Char)
    (h : (stripDashes l).getLast? = some c) : c ≠ '-' := by
  unfold stripDashes at h
  rw [List.getLast?_reverse] at h
  have h2 := List.head?_dropWhile_not (· == '-')
    ((l.dropWhile (· == '-')).reverse)
  rw [h] at h2
  intro hc
  subst hc
  simp at h2

/-- `pyStrip` only removes characters. -/
theorem pyStrip_sublist (l : List Char) : List.Sublist (pyStrip l) l := by
  unfold pyStrip
  have h1 : List.Sublist (l.dropWhile Char.isWhitespace) l :=
    List.dropWhile_sublist _
  have h2 : List.Sublist ((l.dropWhile Char.isWhitespace).reverse.dropWhile
      Char.isWhitespace).reverse (l.dropWhile Char.isWhitespace) := by
    have h := List.reverse_sublist.mpr
      (List.dropWhile_sublist
        (l := (l.dropWhile Char.isWhitespace).reverse) Char.isWhitespace)
    rwa [List.reverse_reverse] at h
  exact h2.trans h1

/-- Every character of the slug is a lowercase letter, a digit, or a
hyphen. -/
theorem slugify_chars (s : String) (c : Char) (h : c ∈ (slugify s).data) :
    (c.isLower = true ∨ c.isDigit = true) ∨ c = '-' := by
  unfold slugify at h
  simp only [String.mk] at h
  have h1 : c ∈ (collapseSeps ((pyStrip (s.data.map Char.toLower)).filter
      keepCh)).take 60 :=
    (List.IsInfix.sublist (stripDashes_within _)).subset h
  have h2 : c ∈ collapseSeps ((pyStrip (s.data.map Char.toLower)).filter
      keepCh) := (List.take_sublist _ _).subset h1
  rcases mem_collapseGo false _ c h2 with hc | ⟨hc, hsep⟩
  · exact Or.inr hc
  · left
    have hmem := List.mem_filter.1 hc
    have hkeep : keepCh c = true := hmem.2
    have hlow : c ∈ s.data.map Char.toLower :=
      (pyStrip_sublist _).subset hmem.1
    rcases List.mem_map.1 hlow with ⟨a, _, ha⟩
    have hnu : c.isUpper = false := by
      rw [← ha]
      exact toLower_not_upper a
    simp only [isSepCh, Bool.or_eq_false_iff, decide_eq_false_iff_not] at hsep
    obtain ⟨⟨hws, hus⟩, hdash⟩ := hsep
    simp only [keepCh, isWordCh, Bool.or_eq_true, decide_eq_true_eq] at hkeep
    rcases hkeep with ((halnum | hu') | hws') | hd'
    · simp only [Char.isAlphanum, Char.isAlpha, Bool.or_eq_true] at halnum
      rcases halnum with (hup | hlo) | hdig
      · rw [hnu] at hup
        exact absurd hup Bool.false_ne_true
      · exact Or.inl hlo
      · exact Or.inr hdig
    · exact absurd hu' hus
    · rw [hws] at hws'
      exact absurd hws' Bool.false_ne_true
    · exact absurd hd' hdash

/--
C5.  `slugify` is a total pure function (determinism and totality are
immediate from the definition), and for every input the output: has length
at most 60, consists only of lowercase letters, digits and hyphens, has no
leading hyphen, no trailing hyphen, and no two consecutive hyphens (runs of
whitespace/underscore/hyphen were collapsed to single hyphens).
-/
theorem c5_slugify_spec (s : String) :
    (slugify s).length ≤ 60 ∧
    (∀ c ∈ (slugify s).data, (c.isLower = true ∨ c.isDigit = true) ∨ c = '-') ∧
    (∀ c, (slugify s).data.head? = some c → c ≠ '-') ∧
    (∀ c, (slugify s).data.getLast? = some c → c ≠ '-') ∧
    (slugify s).data.Chain' NoDD := by
  refine ⟨?_, fun c hc => slugify_chars s c hc, ?_, ?_, ?_⟩
  · show (slugify s).data.length ≤ 60
    unfold slugify
    simp only [String.mk]
    have h1 := (List.IsInfix.sublist (stripDashes_within
      ((collapseSeps ((pyStrip (s.data.map Char.toLower)).filter
        keepCh)).take 60))).length_le
    have h2 := List.length_take_le 60
      (collapseSeps ((pyStrip (s.data.map Char.toLower)).filter keepCh))
    omega
  · intro c hc
    unfold slugify at hc
    simp only [String.mk] at hc
    exact stripDashes_head _ c hc
  · intro c hc
    unfold slugify at hc
    simp only [String.mk] at hc
    exact stripDashes_last _ c hc
  · unfold slugify
    simp only [String.mk]
    have hch := (collapseGo_chain ((pyStrip (s.data.map Char.toLower)).filter
      keepCh) false).1
    have hch2 : ((collapseSeps ((pyStrip (s.data.map Char.toLower)).filter
        keepCh)).take 60).Chain' NoDD := List.Chain'.take hch 60
    exact List.Chain'.infix hch2 (stripDashes_within _)

/-! ### Generic association-list helpers

Python `dict`s are modelled as association lists in insertion order with
unique keys; `dict[k]`/`dict.get(k)` is `List.lookup`. -/

theorem lookup_append {α β : Type} [BEq α] (l₁ l₂ : List (α × β)) (k : α) :
    (l₁ ++ l₂).lookup k =
      match l₁.lookup k with
      | some v => some v
      | none => l₂.lookup k := by
  induction l₁ with
  | nil => simp
  | cons p l ih =>
    by_cases h : k == p.1
    · simp [List.lookup, h]
    · simp only [List.cons_append, List.lookup, h]
      exact ih

theorem lookup_eq_none_of_keys {α β : Type} [BEq α] [LawfulBEq α]
    (l : List (α × β)) (k : α) (h : ∀ p ∈ l, p.1 ≠ k) : l.lookup k = none := by
  induction l with
  | nil => rfl
  | cons p l ih =>
    have hp : p.1 ≠ k := h p (List.mem_cons_self _ _)
    have hk : (k == p.1) = false := by
      simp only [beq_eq_false_iff_ne, ne_eq]
      intro hq
      exact hp hq.symm
    simp only [List.lookup, hk]
    exact ih (fun q hq => h q (List.mem_cons_of_mem _ hq))

/-! ### Episode data model

Shape of the JSON episode documents produced by Stage 2 and stored in
`library/<slug>.json`.  Only the fields the embedded code reads are kept;
optional fields are `Option` so that Python's `dict.get` defaults are
modelled exactly. -/

/-- A value of the `characters` mapping.  The code guards with
`isinstance(char, dict)`, so a non-dict value is possible; for a dict only
the optional `gender` field is read. -/
inductive CharVal where
  | dict (gender : Option String)
  | nondict
deriving Repr, DecidableEq

structure Scene where
  type : Option String := none
  character : Option String := none
  emotion : Option String := none
  text : Option String := none
deriving Repr, DecidableEq

structure Act where
  scenes : List Scene := []
deriving Repr, DecidableEq

structure Episode where
  question : Option String := none
  characters : List (String × CharVal) := []
  acts : List Act := []
  voice_map : List (String × String) := []
  audio_cache : List (String × String) := []
  episode_key : Option String := none
deriving Repr, DecidableEq

/-! ### Voice assignment (src/tts.py)

Embedding of the voice-pool tables (src/tts.py lines 29-54) and
`build_expert_voice_map` (src/tts.py lines 98-125). -/

def GUIDE_VOICES : List (String × String) :=
  [("nova", "rRiIQLylyhtZZrjx61F1"),
   ("bolt", "2f1b6Q2ICKpLzWrEEYVE"),
   ("pip", "cN9lACJjByQco3FyvGzE")]

def EXPERT_VOICES_FEMALE : List String :=
  ["67oeJmj7jIMsdE6yXPr5", "ZT9u07TYPVl83ejeLakq",
   "y5LC9pxhb6k0W8IrQUXS", "0rEo3eAjssGDUCXHYENf"]

def EXPERT_VOICES_MALE : List String :=
  ["MDLAMJ0jxkpYkjXbmG4t", "g2W4HAjKvdW93AmsjsOx",
   "Fz7HYdHHCP1EF1FLn46C", "n1PvBOwxb8X6m7tahp2h"]

/-- Fallback combined pool (src/tts.py line 54). -/
def EXPERT_VOICE_POOL : List String := EXPERT_VOICES_FEMALE ++ EXPERT_VOICES_MALE

/-- `char.get("gender", "").lower() if isinstance(char, dict) else ""`
(src/tts.py line 113). -/
def genderOf : CharVal → String
  | .dict g => (g.getD "").toLower
  | .nondict => ""

/-- Loop body of `build_expert_voice_map`: walks `characters` in iteration
order carrying the three independent round-robin counters
`female_idx`, `male_idx`, `fallback_idx` and the accumulated `voice_map`. -/
def buildGo : List (String × CharVal) → Nat → Nat → Nat →
    List (String × String) → List (String × String)
  | [], _, _, _, vm => vm
  | (cid, cv) :: rest, f, m, fb, vm =>
    match GUIDE_VOICES.lookup cid with
    | some v => buildGo rest f m fb (vm ++ [(cid, v)])
    | none =>
      if genderOf cv = "female" then
        buildGo rest (f + 1) m fb
          (vm ++ [(cid, EXPERT_VOICES_FEMALE.getD
            (f % EXPERT_VOICES_FEMALE.length) "")])
      else if genderOf cv = "male" then
        buildGo rest f (m + 1) fb
          (vm ++ [(cid, EXPERT_VOICES_MALE.getD
            (m % EXPERT_VOICES_MALE.length) "")])
      else
        buildGo rest f m (fb + 1)
          (vm ++ [(cid, EXPERT_VOICE_POOL.getD
            (fb % EXPERT_VOICE_POOL.length) "")])

/-- `build_expert_voice_map` (src/tts.py lines 98-125). -/
def build_expert_voice_map (characters : List (String × CharVal)) :
    List (String × String) :=
  buildGo characters 0 0 0 []

/-- Non-guide characters of the female class among `l` (used to state the
round-robin position of a female expert). -/
def countFemale (l : List (String × CharVal)) : Nat :=
  (l.filter (fun p =>
    (GUIDE_VOICES.lookup p.1).isNone && genderOf p.2 == "female")).length

def countMale (l : List (String × CharVal)) : Nat :=
  (l.filter (fun p =>
    (GUIDE_VOICES.lookup p.1).isNone && genderOf p.2 == "male")).length

def countFallback (l : List (String × CharVal)) : Nat :=
  (l.filter (fun p =>
    (GUIDE_VOICES.lookup p.1).isNone && genderOf p.2 != "female" &&
      genderOf p.2 != "male")).length

/-- The voice the loop body assigns to `(cid, cv)` when the three counters
stand at `f`, `m`, `fb`. -/
def assignVoice (cid : String) (cv : CharVal) (f m fb : Nat) : String :=
  match GUIDE_VOICES.lookup cid with
  | some v => v
  | none =>
    if genderOf cv = "female" then
      EXPERT_VOICES_FEMALE.getD (f % EXPERT_VOICES_FEMALE.length) ""
    else if genderOf cv = "male" then
      EXPERT_VOICES_MALE.getD (m % EXPERT_VOICES_MALE.length) ""
    else
      EXPERT_VOICE_POOL.getD (fb % EXPERT_VOICE_POOL.length) ""

/-- `buildGo` never unbinds a key that is already bound. -/
theorem buildGo_lookup_preserved (l : List (String × CharVal))
    (f m fb : Nat) (vm : List (String × String)) (cid : String) (v : String)
    (h : vm.lookup cid = some v) :
    (buildGo l f m fb vm).lookup cid = some v := by
  induction l generalizing f m fb vm with
  | nil => exact h
  | cons p rest ih =>
    obtain ⟨k, cv⟩ := p
    have happ : ∀ w : String, (vm ++ [(k, w)]).lookup cid = some v := by
      intro w
      rw [lookup_append, h]
    simp only [buildGo]
    cases GUIDE_VOICES.lookup k with
    | some v' => exact ih f m fb _ (happ v')
    | none =>
      by_cases hf : genderOf cv = "female"
      · simp only [hf, if_true]
        exact ih (f + 1) m fb _ (happ _)
      · by_cases hm : genderOf cv = "male"
        · simp only [hf, if_false, hm, if_true]
          exact ih f (m + 1) fb _ (happ _)
        · simp only [hf, if_false, hm]
          exact ih f m (fb + 1) _ (happ _)

theorem countFemale_cons (k : String) (w : CharVal) (l : List (String × CharVal)) :
    countFemale ((k, w) :: l) =
      (bif (GUIDE_VOICES.lookup k).isNone && genderOf w == "female"
        then 1 else 0) + countFemale l := by
  simp only [countFemale, List.filter_cons]
  cases h : ((GUIDE_VOICES.lookup k).isNone && (genderOf w == "female"))
  · simp [h]
  · simp [h]
    omega

theorem countMale_cons (k : String) (w : CharVal) (l : List (String × CharVal)) :
    countMale ((k, w) :: l) =
      (bif (GUIDE_VOICES.lookup k).isNone && genderOf w == "male"
        then 1 else 0) + countMale l := by
  simp only [countMale, List.filter_cons]
  cases h : ((GUIDE_VOICES.lookup k).isNone && (genderOf w == "male"))
  · simp [h]
  · simp [h]
    omega

theorem countFallback_cons (k : String) (w : CharVal) (l : List (String × CharVal)) :
    countFallback ((k, w) :: l) =
      (bif (GUIDE_VOICES.lookup k).isNone && genderOf w != "female" &&
          genderOf w != "male" then 1 else 0) + countFallback l := by
  simp only [countFallback, List.filter_cons]
  cases h : ((GUIDE_VOICES.lookup k).isNone && (genderOf w != "female") &&
      (genderOf w != "male"))
  · simp [h]
  · simp [h]
    omega

/-- Characterisation of `build_expert_voice_map` by first-encounter
position: if `characters = pre ++ (cid, cv) :: post` and `cid` is fresh,
the voice bound to `cid` depends only on `cv` and the per-class counts of
non-guide characters in `pre`. -/
theorem buildGo_split (pre : List (String × CharVal)) (cid : String)
    (cv : CharVal) (post : List (String × CharVal)) (f m fb : Nat)
    (vm : List (String × String))
    (hvm : vm.lookup cid = none)
    (hpre : ∀ p ∈ pre, p.1 ≠ cid) :
    (buildGo (pre ++ (cid, cv) :: post) f m fb vm).lookup cid =
      some (assignVoice cid cv (f + countFemale pre) (m + countMale pre)
        (fb + countFallback pre)) := by
  induction pre generalizing f m fb vm with
  | nil =>
    simp only [List.nil_append, buildGo, countFemale, countMale, countFallback,
      List.filter_nil, List.length_nil, Nat.add_zero]
    have hstep : ∀ w : String, (vm ++ [(cid, w)]).lookup cid = some w := by
      intro w
      rw [lookup_append, hvm]
      simp [List.lookup]
    cases hg : GUIDE_VOICES.lookup cid with
    | some v =>
      rw [assignVoice, hg]
      exact buildGo_lookup_preserved post f m fb _ cid v (hstep v)
    | none =>
      rw [assignVoice, hg]
      by_cases hf : genderOf cv = "female"
      · simp only [hf, if_true]
        exact buildGo_lookup_preserved post (f + 1) m fb _ cid _ (hstep _)
      · by_cases hm : genderOf cv = "male"
        · simp only [hf, if_false, hm, if_true]
          exact buildGo_lookup_preserved post f (m + 1) fb _ cid _ (hstep _)
        · simp only [hf, if_false, hm]
          exact buildGo_lookup_preserved post f m (fb + 1) _ cid _ (hstep _)
  | cons p pre' ih =>
    obtain ⟨k, w⟩ := p
    have hk : k ≠ cid := hpre (k, w) (List.mem_cons_self _ _)
    have hpre' : ∀ q ∈ pre', q.1 ≠ cid :=
      fun q hq => hpre q (List.mem_cons_of_mem _ hq)
    have hvm' : ∀ u : String, (vm ++ [(k, u)]).lookup cid = none := by
      intro u
      rw [lookup_append, hvm]
      simp only [List.lookup, List.lookup_nil]
      have : (cid == k) = false := by
        simp only [beq_eq_false_iff_ne, ne_eq]
        intro hq
        exact hk hq.symm
      simp [this]
    simp only [List.cons_append, buildGo]
    cases hg : GUIDE_VOICES.lookup k with
    | some v =>
      have e1 : countFemale ((k, w) :: pre') = countFemale pre' := by
        rw [countFemale_cons]
        simp [hg]
      have e2 : countMale ((k, w) :: pre') = countMale pre' := by
        rw [countMale_cons]
        simp [hg]
      have e3 : countFallback ((k, w) :: pre') = countFallback pre' := by
        rw [countFallback_cons]
        simp [hg]
      rw [e1, e2, e3]
      exact ih f m fb _ (hvm' v) hpre'
    | none =>
      by_cases hf : genderOf w = "female"
      · simp only [hf, if_true]
        have e1 : f + countFemale ((k, w) :: pre') = (f + 1) + countFemale pre' := by
          rw [countFemale_cons]
          simp only [hg, Option.isNone_none, Bool.true_and, hf]
          simp only [beq_self_eq_true, cond_true]
          omega
        have e2 : countMale ((k, w) :: pre') = countMale pre' := by
          rw [countMale_cons]
          simp [hg, hf]
        have e3 : countFallback ((k, w) :: pre') = countFallback pre' := by
          rw [countFallback_cons]
          simp [hg, hf]
        rw [e1, e2, e3]
        exact ih (f + 1) m fb _ (hvm' _) hpre'
      · by_cases hm : genderOf w = "male"
        · simp only [hf, if_false, hm, if_true]
          have e1 : countFemale ((k, w) :: pre') = countFemale pre' := by
            rw [countFemale_cons]
            have hbf : (genderOf w == "female") = false :=
              beq_eq_false_iff_ne.mpr hf
            simp [hg, hbf]
          have e2 : m + countMale ((k, w) :: pre') = (m + 1) + countMale pre' := by
            rw [countMale_cons]
            simp only [hg, Option.isNone_none, Bool.true_and, hm]
            simp only [beq_self_eq_true, cond_true]
            omega
          have e3 : countFallback ((k, w) :: pre') = countFallback pre' := by
            rw [countFallback_cons]
            simp [hg, hm]
          rw [e1, e2, e3]
          exact ih f (m + 1) fb _ (hvm' _) hpre'
        · simp only [hf, if_false, hm]
          have hbf : (genderOf w == "female") = false :=
            beq_eq_false_iff_ne.mpr hf
          have hbm : (genderOf w == "male") = false :=
            beq_eq_false_iff_ne.mpr hm
          have e1 : countFemale ((k, w) :: pre') = countFemale pre' := by
            rw [countFemale_cons]
            simp [hg, hbf]
          have e2 : countMale ((k, w) :: pre') = countMale pre' := by
            rw [countMale_cons]
            simp [hg, hbm]
          have e3 : fb + countFallback ((k, w) :: pre') =
              (fb + 1) + countFallback pre' := by
            rw [countFallback_cons]
            simp only [hg, Option.isNone_none, Bool.true_and]
            have hf' : (genderOf w != "female") = true := by
              simp [bne, hbf]
            have hm' : (genderOf w != "male") = true := by
              simp [bne, hbm]
            simp only [hf', hm', Bool.true_and, Bool.and_self, cond_true]
            omega
          rw [e1, e2, e3]
          exact ih f m (fb + 1) _ (hvm' _) hpre'

theorem split_keys_not_mem_pre (pre post : List (String × CharVal))
    (cid : String) (cv : CharVal)
    (hnodup : ((pre ++ (cid, cv) :: post).map Prod.fst).Nodup) :
    ∀ p ∈ pre, p.1 ≠ cid := by
  intro p hp heq
  rw [List.map_append] at hnodup
  rcases List.nodup_append.1 hnodup with ⟨_, _, hdisj⟩
  have h1 : p.1 ∈ pre.map Prod.fst := List.mem_map_of_mem _ hp
  rw [heq] at h1
  have h2 : cid ∈ ((cid, cv) :: post).map Prod.fst := by simp
  exact hdisj h1 h2

/--
C6.  Voice assignment: with `characters = pre ++ (cid, cv) :: post` (the
first-encounter split of a character id in iteration order) and unique
keys, `build_expert_voice_map`:
  (1) maps a fixed guide id to its dedicated constant voice;
  (2) maps a female-gendered expert to the female pool at the index given
      by the number of female non-guide characters before it — an
      independent per-pool counter, so the first female expert gets the
      first female-pool voice however many male experts preceded it;
  (3) symmetrically for the male pool;
  (4) is deterministic (a pure function of `characters`), so re-running it
      on an unchanged mapping yields the same `voice_map`.
(Characters without a recognised gender are covered by the theorem for
C10.)
-/
theorem c6_voice_assignment (characters pre post : List (String × CharVal))
    (cid : String) (cv : CharVal)
    (hsplit : characters = pre ++ (cid, cv) :: post)
    (hnodup : (characters.map Prod.fst).Nodup) :
    (∀ v, GUIDE_VOICES.lookup cid = some v →
      (build_expert_voice_map characters).lookup cid = some v) ∧
    (GUIDE_VOICES.lookup cid = none → genderOf cv = "female" →
      (build_expert_voice_map characters).lookup cid =
        some (EXPERT_VOICES_FEMALE.getD
          (countFemale pre % EXPERT_VOICES_FEMALE.length) "")) ∧
    (GUIDE_VOICES.lookup cid = none → genderOf cv = "male" →
      (build_expert_voice_map characters).lookup cid =
        some (EXPERT_VOICES_MALE.getD
          (countMale pre % EXPERT_VOICES_MALE.length) "")) ∧
    build_expert_voice_map characters = build_expert_voice_map characters := by
  subst hsplit
  have hpre := split_keys_not_mem_pre pre post cid cv hnodup
  have base := buildGo_split pre cid cv post 0 0 0 [] rfl hpre
  simp only [Nat.zero_add] at base
  unfold build_expert_voice_map
  refine ⟨?_, ?_, ?_, rfl⟩
  · intro v hg
    rw [base, assignVoice, hg]
  · intro hg hfem
    rw [base, assignVoice, hg]
    simp [hfem]
  · intro hg hmale
    rw [base, assignVoice, hg]
    have : ¬ genderOf cv = "female" := by
      rw [hmale]
      decide
    simp [this, hmale]

/-- Witness for C6 at a concrete `characters` mapping: the guide "nova",
then a male expert, then the first female expert (who must get the first
female-pool voice even though a male expert precedes her). -/
theorem c6_voice_assignment_witness :
    ([("nova", CharVal.dict (some "female")),
      ("max", CharVal.dict (some "male")),
      ("zoe", CharVal.dict (some "female")),
      ("rex", CharVal.nondict)] =
      [("nova", CharVal.dict (some "female")),
       ("max", CharVal.dict (some "male"))] ++
        ("zoe", CharVal.dict (some "female")) :: [("rex", CharVal.nondict)]) ∧
    (([("nova", CharVal.dict (some "female")),
       ("max", CharVal.dict (some "male")),
       ("zoe", CharVal.dict (some "female")),
       ("rex", CharVal.nondict)].map Prod.fst).Nodup) ∧
    ((∀ v, GUIDE_VOICES.lookup "zoe" = some v →
      (build_expert_voice_map
        [("nova", CharVal.dict (some "female")),
         ("max", CharVal.dict (some "male")),
         ("zoe", CharVal.dict (some "female")),
         ("rex", CharVal.nondict)]).lookup "zoe" = some v) ∧
    (GUIDE_VOICES.lookup "zoe" = none →
      genderOf (CharVal.dict (some "female")) = "female" →
      (build_expert_voice_map
        [("nova", CharVal.dict (some "female")),
         ("max", CharVal.dict (some "male")),
         ("zoe", CharVal.dict (some "female")),
         ("rex", CharVal.nondict)]).lookup "zoe" =
        some (EXPERT_VOICES_FEMALE.getD
          (countFemale [("nova", CharVal.dict (some "female")),
            ("max", CharVal.dict (some "male"))] %
              EXPERT_VOICES_FEMALE.length) "")) ∧
    (GUIDE_VOICES.lookup "zoe" = none →
      genderOf (CharVal.dict (some "female")) = "male" →
      (build_expert_voice_map
        [("nova", CharVal.dict (some "female")),
         ("max", CharVal.dict (some "male")),
         ("zoe", CharVal.dict (some "female")),
         ("rex", CharVal.nondict)]).lookup "zoe" =
        some (EXPERT_VOICES_MALE.getD
          (countMale [("nova", CharVal.dict (some "female")),
            ("max", CharVal.dict (some "male"))] %
              EXPERT_VOICES_MALE.length) "")) ∧
    build_expert_voice_map
        [("nova", CharVal.dict (some "female")),
         ("max", CharVal.dict (some "male")),
         ("zoe", CharVal.dict (some "female")),
         ("rex", CharVal.nondict)] =
      build_expert_voice_map
        [("nova", CharVal.dict (some "female")),
         ("max", CharVal.dict (some "male")),
         ("zoe", CharVal.dict (some "female")),
         ("rex", CharVal.nondict)]) :=
  ⟨rfl, by decide,
    c6_voice_assignment _ _ _ "zoe" (CharVal.dict (some "female")) rfl
      (by decide)⟩

/--
C10.  Voice assignment fallback: a non-guide character whose computed
gender class — `char.get("gender", "").lower()` for a dict, `""` for a
non-dict record — is anything other than exactly "female" or "male"
(missing field, empty string, any other value, or a non-dict record) is
assigned from the combined fallback pool, round-robin on its own
independent counter (the number of fallback-class non-guide characters
encountered before it).
-/
theorem c10_fallback_assignment (characters pre post : List (String × CharVal))
    (cid : String) (cv : CharVal)
    (hsplit : characters = pre ++ (cid, cv) :: post)
    (hnodup : (characters.map Prod.fst).Nodup)
    (hguide : GUIDE_VOICES.lookup cid = none)
    (hf : genderOf cv ≠ "female") (hm : genderOf cv ≠ "male") :
    (build_expert_voice_map characters).lookup cid =
      some (EXPERT_VOICE_POOL.getD
        (countFallback pre % EXPERT_VOICE_POOL.length) "") := by
  subst hsplit
  have hpre := split_keys_not_mem_pre pre post cid cv hnodup
  have base := buildGo_split pre cid cv post 0 0 0 [] rfl hpre
  simp only [Nat.zero_add] at base
  unfold build_expert_voice_map
  rw [base, assignVoice, hguide]
  simp [hf, hm]

/-- Witness for C10 at a concrete mapping: "rex" is a non-dict character
record, so it draws the first fallback-pool voice. -/
theorem c10_fallback_assignment_witness :
    ([("nova", CharVal.dict (some "female")),
      ("max", CharVal.dict (some "male")),
      ("zoe", CharVal.dict none),
      ("rex", CharVal.nondict)] =
      [("nova", CharVal.dict (some "female")),
       ("max", CharVal.dict (some "male")),
       ("zoe", CharVal.dict none)] ++
        ("rex", CharVal.nondict) :: []) ∧
    (([("nova", CharVal.dict (some "female")),
       ("max", CharVal.dict (some "male")),
       ("zoe", CharVal.dict none),
       ("rex", CharVal.nondict)].map Prod.fst).Nodup) ∧
    GUIDE_VOICES.lookup "rex" = none ∧
    genderOf CharVal.nondict ≠ "female" ∧
    genderOf CharVal.nondict ≠ "male" ∧
    (build_expert_voice_map
      [("nova", CharVal.dict (some "female")),
       ("max", CharVal.dict (some "male")),
       ("zoe", CharVal.dict none),
       ("rex", CharVal.nondict)]).lookup "rex" =
      some (EXPERT_VOICE_POOL.getD
        (countFallback [("nova", CharVal.dict (some "female")),
          ("max", CharVal.dict (some "male")),
          ("zoe", CharVal.dict none)] % EXPERT_VOICE_POOL.length) "") :=
  ⟨rfl, by decide, by decide, by decide, by decide,
    c10_fallback_assignment _ _ _ "rex" CharVal.nondict rfl
      (by decide) (by decide) (by decide) (by decide)⟩

/-! ### Episode store (src/server.py)

The `library/` directory is modelled as an association list from slug to
episode document in file-creation order; `os.path.exists` is `lookup`
`isSome`, reading the file is `lookup`, and creating the file appends. -/

/-- The on-disk library. -/
abbrev Store : Type := List (String × Episode)

/-- `load`: read `library/<slug>.json` if it exists. -/
def loadEpisode (store : Store) (slug : String) : Option Episode :=
  List.lookup slug store

/-- `save_episode` (src/server.py lines 26-36): derive the slug from the
episode's own `question` field and write the file only if it does not
already exist; returns the slug. -/
def save_episode (store : Store) (episode : Episode) : Store × String :=
  let slug := slugify (episode.question.getD "unknown")
  if (loadEpisode store slug).isSome then (store, slug)
  else (store ++ [(slug, episode)], slug)

/--
C2.  Store non-overwrite: if a record already exists at slug `S`, calling
`save_episode` with any (possibly different) episode document whose
question slugifies to `S` is a silent no-op, not an error: the store is
unchanged and a subsequent load of `S` still returns the original
document.
-/
theorem c2_save_non_overwrite (store : Store) (S : String) (ep0 ep : Episode)
    (hexist : loadEpisode store S = some ep0)
    (hslug : slugify (ep.question.getD "unknown") = S) :
    (save_episode store ep).1 = store ∧
    loadEpisode (save_episode store ep).1 S = some ep0 := by
  unfold save_episode
  simp only [hslug, hexist, Option.isSome_some, if_true]
  exact ⟨trivial, trivial⟩

/-- Witness for C2: the store already holds a document at slug "a"; saving
a different document whose question "A!" also slugifies to "a" changes
nothing. -/
theorem c2_save_non_overwrite_witness :
    loadEpisode [("a", { question := some "a" : Episode })] "a" =
      some { question := some "a" } ∧
    slugify (({ question := some "A!", episode_key := some "k" } :
      Episode).question.getD "unknown") = "a" ∧
    (save_episode [("a", { question := some "a" : Episode })]
      { question := some "A!", episode_key := some "k" }).1 =
      [("a", { question := some "a" : Episode })] ∧
    loadEpisode (save_episode [("a", { question := some "a" : Episode })]
      { question := some "A!", episode_key := some "k" }).1 "a" =
      some { question := some "a" } :=
  ⟨by decide, by decide,
    c2_save_non_overwrite [("a", { question := some "a" })] "a"
      { question := some "a" } { question := some "A!", episode_key := some "k" }
      (by decide) (by decide)⟩

/-! ### Two-stage generation, server side (src/server.py)

The generation capability and the JSON parser of the standard library are
external collaborators: `llm n` is the raw text of the `n`-th
chat-completion response made by the process (the prompt wording is
outside the core per the specification), and the two parsers model
`json.loads` against the respective stage payloads.  The outline value is
only logged by the code, so its parsed form carries no data. -/

structure GenEnv where
  llm : Nat → String
  parseOutline : String → Option Unit
  parseEpisode : String → Option Episode

/-- `clean_json` (src/server.py lines 68-73):

    t = text.strip()
    if t.startswith("```"):
        t = t.split("\n", 1)[1].rsplit("```", 1)[0].strip()
    return t

Returns `none` where Python raises: `t.split("\n", 1)[1]` raises
IndexError when the fenced text contains no newline. -/
def clean_json (text : String) : Option String :=
  let t := pyStrip text.data
  if listStarts "```".data t then
    match splitFirstChar '\n' t with
    | none => none
    | some p =>
      some (String.mk (pyStrip (beforeLastSub "```".data p.2)))
  else some (String.mk t)

structure GenOutcome where
  result : Except String Episode
  calls : Nat
deriving Repr

/-- `generate_episode` (src/server.py lines 76-115): Stage 1 then Stage 2,
each one generation call followed by `clean_json` and `json.loads`; a
parse failure raises `json.JSONDecodeError` immediately — there is no
retry and no persistence in this function.  `calls` counts the generation
calls made. -/
def generate_episode (env : GenEnv) (_question : String) : GenOutcome :=
  match clean_json (env.llm 0) with
  | none => ⟨.error "IndexError in clean_json", 1⟩
  | some outline_text =>
    match env.parseOutline outline_text with
    | none => ⟨.error "json.JSONDecodeError: stage 1", 1⟩
    | some _ =>
      match clean_json (env.llm 1) with
      | none => ⟨.error "IndexError in clean_json", 2⟩
      | some script_text =>
        match env.parseEpisode script_text with
        | none => ⟨.error "json.JSONDecodeError: stage 2", 2⟩
        | some script => ⟨.ok script, 2⟩

structure ApiGenResult where
  ok : Bool
  episode : Option Episode
  store : Store
  calls : Nat
deriving Repr, DecidableEq

/-- `api_generate` (src/server.py lines 131-164).  Validation first; then
the two-stage chain; on success the voice map and episode key are attached
and the episode is saved (non-overwriting); every raised exception is
caught and returned as an error response.  `epKey` abstracts
`f"{hash(question)}_{int(time.time())}"` (hash seed and clock are
external). -/
def api_generate (env : GenEnv) (epKey : String) (store : Store)
    (question : String) : ApiGenResult :=
  if pyStripStr question = "" then ⟨false, none, store, 0⟩
  else if 200 < (pyStripStr question).length then ⟨false, none, store, 0⟩
  else
    match generate_episode env (pyStripStr question) with
    | ⟨.error _, n⟩ => ⟨false, none, store, n⟩
    | ⟨.ok ep, n⟩ =>
      let ep' := { ep with
        voice_map := build_expert_voice_map ep.characters,
        episode_key := some epKey }
      ⟨true, some ep', (save_episode store ep').1, n⟩

/-! ### TTS endpoint (src/server.py lines 167-226) -/

/-- External synthesis environment: `synthesize text voice emotion` either
returns audio bytes or fails with an exception message;
`b64encode` models `base64.b64encode(...).decode("ascii")`. -/
structure TtsEnv where
  synthesize : String → String → String → Except String String
  b64encode : String → String

/-- Overwriting file write `open(path, "w")` at slug granularity. -/
def storeSet (store : Store) (slug : String) (ep : Episode) : Store :=
  if (List.lookup slug store).isSome then
    store.map (fun p => if p.1 = slug then (slug, ep) else p)
  else store ++ [(slug, ep)]

/-- The audio-cache write path of `api_tts` (src/server.py lines 199-214):
only when a slug and scene key are provided, the audio is non-empty, the
episode file exists, and the scene key is not already cached, is the
encoded audio inserted and the file rewritten. -/
def ttsCacheWrite (env : TtsEnv) (store : Store)
    (slug scene_key audio : String) : Store :=
  if slug ≠ "" ∧ scene_key ≠ "" ∧ audio ≠ "" then
    match loadEpisode store slug with
    | none => store
    | some ep =>
      if (ep.audio_cache.lookup scene_key).isSome then store
      else
        storeSet store slug
          { ep with audio_cache :=
              ep.audio_cache ++ [(scene_key, env.b64encode audio)] }
  else store

structure ApiTtsResult where
  ok : Bool
  audio : Option String
  store : Store
  calls : Nat
deriving Repr, DecidableEq

/-- `api_tts` (src/server.py lines 167-226): validate the text, then
synthesize, then opportunistically cache.  `calls` counts synthesis
invocations. -/
def api_tts (env : TtsEnv) (store : Store)
    (text voice emotion slug scene_key : String) : ApiTtsResult :=
  if pyStripStr text = "" then ⟨false, none, store, 0⟩
  else
    match env.synthesize (pyStripStr text) voice emotion with
    | .error _ => ⟨false, none, store, 1⟩
    | .ok audio =>
      ⟨true, some audio, ttsCacheWrite env store slug scene_key audio, 1⟩

/-! #### C7 / C9 -/

theorem generate_episode_stage1_fail (env : GenEnv) (q : String)
    (h : (clean_json (env.llm 0)).bind env.parseOutline = none) :
    ∃ e, generate_episode env q = ⟨.error e, 1⟩ := by
  unfold generate_episode
  cases hc : clean_json (env.llm 0) with
  | none => exact ⟨_, rfl⟩
  | some t =>
    rw [hc] at h
    simp only [Option.some_bind] at h
    simp only [h]
    exact ⟨_, rfl⟩

theorem generate_episode_stage2_fail (env : GenEnv) (q t : String)
    (h0 : clean_json (env.llm 0) = some t)
    (h1 : (env.parseOutline t).isSome)
    (h2 : (clean_json (env.llm 1)).bind env.parseEpisode = none) :
    ∃ e, generate_episode env q = ⟨.error e, 2⟩ := by
  unfold generate_episode
  rw [h0]
  obtain ⟨u, hu⟩ := Option.isSome_iff_exists.1 h1
  simp only [hu]
  cases hc : clean_json (env.llm 1) with
  | none => exact ⟨_, rfl⟩
  | some t2 =>
    rw [hc] at h2
    simp only [Option.some_bind] at h2
    simp only [h2]
    exact ⟨_, rfl⟩

/--
C7.  A structured-output parse failure in either stage is terminal for the
attempt: the endpoint answers with an error, the generation capability is
not invoked again beyond the failing call (one call total for a Stage-1
failure, two for a Stage-2 failure — no automatic retry), and the store is
untouched (nothing is persisted for that attempt).  The hypotheses put the
request past input validation; `(clean_json r).bind parse = none` covers
both a fence-stripping IndexError and a `json.loads` failure.
-/
theorem c7_parse_failure_terminal (env : GenEnv) (epKey : String)
    (store : Store) (question : String)
    (hq1 : pyStripStr question ≠ "") (hq2 : (pyStripStr question).length ≤ 200) :
    ((clean_json (env.llm 0)).bind env.parseOutline = none →
      api_generate env epKey store question = ⟨false, none, store, 1⟩) ∧
    (∀ t, clean_json (env.llm 0) = some t → (env.parseOutline t).isSome →
      (clean_json (env.llm 1)).bind env.parseEpisode = none →
      api_generate env epKey store question = ⟨false, none, store, 2⟩) := by
  have hlen : ¬ 200 < (pyStripStr question).length := Nat.not_lt.mpr hq2
  constructor
  · intro h1
    obtain ⟨e, he⟩ := generate_episode_stage1_fail env (pyStripStr question) h1
    unfold api_generate
    rw [if_neg hq1, if_neg hlen, he]
  · intro t h0 h1 h2
    obtain ⟨e, he⟩ :=
      generate_episode_stage2_fail env (pyStripStr question) t h0 h1 h2
    unfold api_generate
    rw [if_neg hq1, if_neg hlen, he]

/-- Witness for C7: an LLM whose output never parses; one generation call
is made, the response is an error, and the store stays empty. -/
theorem c7_parse_failure_terminal_witness :
    (pyStripStr "why" ≠ "") ∧ ((pyStripStr "why").length ≤ 200) ∧
    ((clean_json (((⟨fun _ => "not json", fun _ => none, fun _ => none⟩ :
        GenEnv)).llm 0)).bind
      (⟨fun _ => "not json", fun _ => none, fun _ => none⟩ :
        GenEnv).parseOutline = none) ∧
    api_generate (⟨fun _ => "not json", fun _ => none, fun _ => none⟩ :
        GenEnv) "k" [] "why" = ⟨false, none, [], 1⟩ :=
  ⟨by decide, by decide, by decide,
    (c7_parse_failure_terminal
      (⟨fun _ => "not json", fun _ => none, fun _ => none⟩ : GenEnv)
      "k" [] "why" (by decide) (by decide)).1 (by decide)⟩

/--
C9.  Input validation happens before any external call: an empty (or
all-whitespace) question, or a question longer than 200 characters after
stripping, is rejected by `api_generate` with zero generation calls; an
empty text is rejected by `api_tts` with zero synthesis calls.  In each
case the store is untouched and the response is an error.
-/
theorem c9_validation_before_external (genv : GenEnv) (tenv : TtsEnv)
    (epKey : String) (store store2 : Store)
    (question text voice emotion slug scene_key : String) :
    (pyStripStr question = "" →
      api_generate genv epKey store question = ⟨false, none, store, 0⟩) ∧
    (200 < (pyStripStr question).length →
      api_generate genv epKey store question = ⟨false, none, store, 0⟩) ∧
    (pyStripStr text = "" →
      api_tts tenv store2 text voice emotion slug scene_key =
        ⟨false, none, store2, 0⟩) := by
  refine ⟨?_, ?_, ?_⟩
  · intro h
    unfold api_generate
    rw [if_pos h]
  · intro h
    have hne : pyStripStr question ≠ "" := by
      intro he
      rw [he] at h
      simp [String.length] at h
    unfold api_generate
    rw [if_neg hne, if_pos h]
  · intro h
    unfold api_tts
    rw [if_pos h]

set_option maxRecDepth 8000 in
/-- Witness for C9 at concrete malformed inputs: a whitespace-only
question, a 201-character question, and a whitespace-only TTS text. -/
theorem c9_validation_before_external_witness :
    ((pyStripStr "   " = "") →
      api_generate (⟨fun _ => "", fun _ => none, fun _ => none⟩ : GenEnv)
        "k" [] "   " = ⟨false, none, [], 0⟩) ∧
    ((pyStripStr "   " = "") ∧
      api_generate (⟨fun _ => "", fun _ => none, fun _ => none⟩ : GenEnv)
        "k" [] "   " = ⟨false, none, [], 0⟩) ∧
    (200 < (pyStripStr (String.mk (List.replicate 201 'a'))).length ∧
      api_generate (⟨fun _ => "", fun _ => none, fun _ => none⟩ : GenEnv)
        "k" [] (String.mk (List.replicate 201 'a')) = ⟨false, none, [], 0⟩) ∧
    ((pyStripStr " " = "") ∧
      api_tts (⟨fun _ _ _ => .ok "x", fun a => a⟩ : TtsEnv) [] " "
        "troy" "neutral" "" "" = ⟨false, none, [], 0⟩) := by
  refine ⟨?_, ⟨by decide, ?_⟩, ⟨by decide, ?_⟩, ⟨by decide, ?_⟩⟩
  · intro h
    exact (c9_validation_before_external
      (⟨fun _ => "", fun _ => none, fun _ => none⟩ : GenEnv)
      (⟨fun _ _ _ => .ok "x", fun a => a⟩ : TtsEnv) "k" [] [] "   " " "
      "troy" "neutral" "" "").1 h
  · exact (c9_validation_before_external
      (⟨fun _ => "", fun _ => none, fun _ => none⟩ : GenEnv)
      (⟨fun _ _ _ => .ok "x", fun a => a⟩ : TtsEnv) "k" [] [] "   " " "
      "troy" "neutral" "" "").1 (by decide)
  · exact (c9_validation_before_external
      (⟨fun _ => "", fun _ => none, fun _ => none⟩ : GenEnv)
      (⟨fun _ _ _ => .ok "x", fun a => a⟩ : TtsEnv) "k" [] []
      (String.mk (List.replicate 201 'a')) " "
      "troy" "neutral" "" "").2.1 (by decide)
  · exact (c9_validation_before_external
      (⟨fun _ => "", fun _ => none, fun _ => none⟩ : GenEnv)
      (⟨fun _ _ _ => .ok "x", fun a => a⟩ : TtsEnv) "k" [] [] "   " " "
      "troy" "neutral" "" "").2.2 (by decide)

/-! ### Batch generate-or-reuse (src/generate_library.py) -/

/-- Fenced-payload extraction, src/generate_library.py lines 52-56 / 72-76:

    if "```json" in s: s = s.split("```json")[1].split("```")[0].strip()
    elif "```" in s:   s = s.split("```")[1].split("```")[0].strip()

applied to the stripped response text. -/
def extractFenced (raw : String) : String :=
  let s := pyStrip raw.data
  if containsSub "```json".data s then
    match afterFirstSub "```json".data s with
    | none => String.mk s
    | some r => String.mk (pyStrip (beforeFirstSub "```".data r))
  else if containsSub "```".data s then
    match afterFirstSub "```".data s with
    | none => String.mk s
    | some r => String.mk (pyStrip (beforeFirstSub "```".data r))
  else String.mk s

structure GenJsonOutcome where
  result : Except String (Episode × String)
  store : Store
  calls : Nat
deriving Repr

/-- The fresh-generation path of `generate_episode_json`
(src/generate_library.py lines 40-88): two generation calls, fence
extraction and `json.loads` for each stage, then the voice map is attached
and the JSON is written (overwriting the slug's file). -/
def generateFresh (env : GenEnv) (store : Store) (slug : String) :
    GenJsonOutcome :=
  match env.parseOutline (extractFenced (env.llm 0)) with
  | none => ⟨.error "json.JSONDecodeError: stage 1", store, 1⟩
  | some _ =>
    match env.parseEpisode (extractFenced (env.llm 1)) with
    | none => ⟨.error "json.JSONDecodeError: stage 2", store, 2⟩
    | some ep =>
      ⟨.ok ({ ep with voice_map := build_expert_voice_map ep.characters },
          slug),
        storeSet store slug
          { ep with voice_map := build_expert_voice_map ep.characters }, 2⟩

/-- `generate_episode_json` (src/generate_library.py lines 27-88): the
caller-facing generate-or-reuse operation.  If `library/<slug>.json`
exists and its `acts` list is non-empty, the stored document is returned
with no generation call; otherwise the two-stage chain runs. -/
def generate_episode_json (env : GenEnv) (store : Store) (question : String) :
    GenJsonOutcome :=
  match loadEpisode store (slugify question) with
  | some ep =>
    if ep.acts.isEmpty then generateFresh env store (slugify question)
    else ⟨.ok (ep, slugify question), store, 0⟩
  | none => generateFresh env store (slugify question)

/--
C1.  Generate-or-reuse: when the question's slug already has a persisted
episode whose `acts` list is non-empty, `generate_episode_json` returns
the stored document unchanged, leaves the store unchanged, and makes zero
generation calls (the two-stage chain is not invoked).
-/
theorem c1_generate_or_reuse (env : GenEnv) (store : Store) (q : String)
    (ep : Episode) (hcached : loadEpisode store (slugify q) = some ep)
    (hacts : ep.acts ≠ []) :
    generate_episode_json env store q = ⟨.ok (ep, slugify q), store, 0⟩ := by
  unfold generate_episode_json
  rw [hcached]
  have h : ep.acts.isEmpty = false := by
    cases hl : ep.acts with
    | nil => exact absurd hl hacts
    | cons a l => rfl
  simp only [h, Bool.false_eq_true, if_false]

/-- Witness for C1: a store holding a one-act episode under the slug of
"Why is the sky blue?"; a repeat call returns it with zero calls. -/
theorem c1_generate_or_reuse_witness :
    loadEpisode
      [("why-is-the-sky-blue",
        { question := some "Why is the sky blue?",
          acts := [{ scenes := [] }] : Episode })]
      (slugify "Why is the sky blue?") =
      some { question := some "Why is the sky blue?",
             acts := [{ scenes := [] }] } ∧
    ({ question := some "Why is the sky blue?",
       acts := [{ scenes := [] }] : Episode }).acts ≠ [] ∧
    generate_episode_json
      (⟨fun _ => "", fun _ => none, fun _ => none⟩ : GenEnv)
      [("why-is-the-sky-blue",
        { question := some "Why is the sky blue?",
          acts := [{ scenes := [] }] })]
      "Why is the sky blue?" =
      ⟨.ok ({ question := some "Why is the sky blue?",
              acts := [{ scenes := [] }] },
          slugify "Why is the sky blue?"),
        [("why-is-the-sky-blue",
          { question := some "Why is the sky blue?",
            acts := [{ scenes := [] }] })], 0⟩ :=
  ⟨by decide, by decide,
    c1_generate_or_reuse
      (⟨fun _ => "", fun _ => none, fun _ => none⟩ : GenEnv)
      [("why-is-the-sky-blue",
        { question := some "Why is the sky blue?",
          acts := [{ scenes := [] }] })]
      "Why is the sky blue?"
      { question := some "Why is the sky blue?", acts := [{ scenes := [] }] }
      (by decide) (by decide)⟩

/-! ### Scene keys

`key = f"{aI}-{sI}"` (src/generate_library.py line 108); the same keys
address `audio_cache` in the server's endpoints.  For the proofs about the
audio walk we need that distinct `(act, scene)` index pairs give distinct
keys, i.e. that this string format is injective. -/

/-- `f"{aI}-{sI}"`. -/
def sceneKey (aI sI : Nat) : String :=
  Nat.repr aI ++ "-" ++ Nat.repr sI

/-- Reference decimal-digit function used to reason about `Nat.repr`. -/
def tdigits (n : Nat) : List Char :=
  if _h : n < 10 then [Nat.digitChar n]
  else tdigits (n / 10) ++ [Nat.digitChar (n % 10)]
decreasing_by exact Nat.div_lt_self (by omega) (by omega)

theorem tdigits_lt {n : Nat} (h : n < 10) : tdigits n = [Nat.digitChar n] := by
  rw [tdigits]
  rw [dif_pos h]

theorem tdigits_ge {n : Nat} (h : ¬ n < 10) :
    tdigits n = tdigits (n / 10) ++ [Nat.digitChar (n % 10)] := by
  conv_lhs => rw [tdigits]
  rw [dif_neg h]

theorem toDigitsCore_eq_tdigits (fuel : Nat) :
    ∀ (n : Nat) (ds : List Char), n < fuel →
      Nat.toDigitsCore 10 fuel n ds = tdigits n ++ ds := by
  induction fuel with
  | zero =>
    intro n ds h
    omega
  | succ fuel ih =>
    intro n ds h
    rw [Nat.toDigitsCore]
    by_cases h10 : n / 10 = 0
    · have hlt : n < 10 := by omega
      simp only [h10, if_true]
      rw [tdigits_lt hlt, Nat.mod_eq_of_lt hlt]
      rfl
    · have hge : 10 ≤ n := by omega
      have hstep : n / 10 < fuel := by
        have h1 : n / 10 < n := Nat.div_lt_self (by omega) (by omega)
        omega
      simp only [h10, if_false]
      rw [ih (n / 10) _ hstep]
      rw [tdigits_ge (by omega : ¬ n < 10)]
      simp [List.append_assoc]

theorem repr_data_eq_tdigits (n : Nat) : (Nat.repr n).data = tdigits n := by
  show (Nat.toDigits 10 n).asString.data = tdigits n
  rw [Nat.toDigits, toDigitsCore_eq_tdigits (n + 1) n [] (by omega)]
  simp [List.asString]

theorem digitChar_ne_dash (d : Nat) (h : d < 10) : Nat.digitChar d ≠ '-' := by
  interval_cases d <;> decide

theorem digitChar_inj_lt (a b : Nat) (ha : a < 10) (hb : b < 10)
    (h : Nat.digitChar a = Nat.digitChar b) : a = b := by
  interval_cases a <;> interval_cases b <;> revert h <;> decide

theorem tdigits_ne_nil (n : Nat) : tdigits n ≠ [] := by
  by_cases h : n < 10
  · rw [tdigits_lt h]
    simp
  · rw [tdigits_ge h]
    simp

theorem mem_tdigits_ne_dash (n : Nat) : ∀ c ∈ tdigits n, c ≠ '-' := by
  induction n using Nat.strong_induction_on with
  | _ n ih =>
    intro c hc
    by_cases h : n < 10
    · rw [tdigits_lt h] at hc
      simp only [List.mem_singleton] at hc
      subst hc
      exact digitChar_ne_dash n h
    · rw [tdigits_ge h] at hc
      rcases List.mem_append.1 hc with h' | h'
      · exact ih (n / 10) (Nat.div_lt_self (by omega) (by omega)) c h'
      · simp only [List.mem_singleton] at h'
        subst h'
        exact digitChar_ne_dash _ (Nat.mod_lt _ (by omega))

theorem tdigits_inj (a : Nat) : ∀ b, tdigits a = tdigits b → a = b := by
  induction a using Nat.strong_induction_on with
  | _ a ih =>
    intro b h
    by_cases ha : a < 10
    · by_cases hb : b < 10
      · rw [tdigits_lt ha, tdigits_lt hb] at h
        simp only [List.cons.injEq, and_true] at h
        exact digitChar_inj_lt a b ha hb h
      · rw [tdigits_lt ha, tdigits_ge hb] at h
        have hlen := congrArg List.length h
        have hne := tdigits_ne_nil (b / 10)
        simp only [List.length_singleton, List.length_append] at hlen
        cases hq : tdigits (b / 10) with
        | nil => exact absurd hq hne
        | cons x xs =>
          rw [hq] at hlen
          simp at hlen
    · by_cases hb : b < 10
      · rw [tdigits_ge ha, tdigits_lt hb] at h
        have hlen := congrArg List.length h
        have hne := tdigits_ne_nil (a / 10)
        simp only [List.length_singleton, List.length_append] at hlen
        cases hq : tdigits (a / 10) with
        | nil => exact absurd hq hne
        | cons x xs =>
          rw [hq] at hlen
          simp at hlen
      · rw [tdigits_ge ha, tdigits_ge hb] at h
        have hsplit := List.append_inj' h (by simp)
        have hdiv : a / 10 = b / 10 :=
          ih (a / 10) (Nat.div_lt_self (by omega) (by omega)) (b / 10) hsplit.1
        have hmod : a % 10 = b % 10 := by
          have := hsplit.2
          simp only [List.cons.injEq, and_true] at this
          exact digitChar_inj_lt _ _ (Nat.mod_lt _ (by omega))
            (Nat.mod_lt _ (by omega)) this
        omega

theorem append_dash_inj (l₁ r₁ l₂ r₂ : List Char)
    (h₁ : ∀ c ∈ l₁, c ≠ '-') (h₂ : ∀ c ∈ l₂, c ≠ '-')
    (h : l₁ ++ '-' :: r₁ = l₂ ++ '-' :: r₂) : l₁ = l₂ ∧ r₁ = r₂ := by
  induction l₁ generalizing l₂ with
  | nil =>
    cases l₂ with
    | nil =>
      simp only [List.nil_append, List.cons.injEq, true_and] at h
      exact ⟨rfl, h⟩
    | cons y ys =>
      simp only [List.nil_append, List.cons_append, List.cons.injEq] at h
      exact absurd h.1.symm (h₂ y (List.mem_cons_self _ _))
  | cons x xs ih =>
    cases l₂ with
    | nil =>
      simp only [List.cons_append, List.nil_append, List.cons.injEq] at h
      exact absurd h.1 (h₁ x (List.mem_cons_self _ _))
    | cons y ys =>
      simp only [List.cons_append, List.cons.injEq] at h
      have hrec := ih ys (fun c hc => h₁ c (List.mem_cons_of_mem _ hc))
        (fun c hc => h₂ c (List.mem_cons_of_mem _ hc)) h.2
      exact ⟨by rw [h.1, hrec.1], hrec.2⟩

/-- Distinct `(act index, scene index)` pairs give distinct scene keys. -/
theorem sceneKey_inj (a s a' s' : Nat) (h : sceneKey a s = sceneKey a' s') :
    a = a' ∧ s = s' := by
  unfold sceneKey at h
  have hd := congrArg String.data h
  simp only [String.data_append] at hd
  simp only [List.append_assoc, List.singleton_append] at hd
  rw [repr_data_eq_tdigits, repr_data_eq_tdigits, repr_data_eq_tdigits,
    repr_data_eq_tdigits] at hd
  have := append_dash_inj _ _ _ _ (mem_tdigits_ne_dash a)
    (mem_tdigits_ne_dash a') hd
  exact ⟨tdigits_inj a a' this.1, tdigits_inj s s' this.2⟩

/-! ### Audio walk (src/generate_library.py lines 91-145) -/

/-- Rate/quota classification of a synthesis failure
(src/generate_library.py line 129):
`"rate" in str(e).lower() or "limit" in str(e).lower()`. -/
def isRateMsg (e : String) : Bool :=
  containsSub "rate".data (e.data.map Char.toLower) ||
    containsSub "limit".data (e.data.map Char.toLower)

/-- Synthesis adapter boundary: call index → (text, voice, emotion) →
audio bytes or an exception message.  The call index lets an adapter model
state across successive calls (e.g. a backend that starts refusing on the
n-th request). -/
abbrev Synth : Type := Nat → String → String → String → Except String String

/-- Counters of the walk: the cache being filled plus `total_scenes`,
`cached_scenes`, `generated_scenes` and the number of synthesis calls
made. -/
structure WalkSt where
  cache : List (String × String)
  total : Nat
  cachedN : Nat
  gen : Nat
  calls : Nat
deriving Repr, DecidableEq

/-- Inner loop over one act's scenes (src/generate_library.py lines
101-131), scene index `sI` enumerating all scenes.  The boolean result is
whether the rate-limit `break` fired. -/
def sceneStepList (synth : Synth) (enc : String → String)
    (vm : List (String × String)) (aI : Nat) :
    Nat → List Scene → WalkSt → WalkSt × Bool
  | _, [], st => (st, false)
  | sI, sc :: rest, st =>
    if ¬ (sc.type = some "dialogue" ∨ sc.type = some "explanation") then
      sceneStepList synth enc vm aI (sI + 1) rest st
    else
      match sc.text with
      | none => sceneStepList synth enc vm aI (sI + 1) rest st
      | some "" => sceneStepList synth enc vm aI (sI + 1) rest st
      | some txt =>
        if ((st.cache.lookup (sceneKey aI sI)).isSome) then
          sceneStepList synth enc vm aI (sI + 1) rest
            ⟨st.cache, st.total + 1, st.cachedN + 1, st.gen, st.calls⟩
        else
          match synth st.calls txt
            ((vm.lookup (sc.character.getD "")).getD "troy")
            (sc.emotion.getD "neutral") with
          | .ok audio =>
            sceneStepList synth enc vm aI (sI + 1) rest
              ⟨st.cache ++ [(sceneKey aI sI, enc audio)], st.total + 1,
                st.cachedN, st.gen + 1, st.calls + 1⟩
          | .error e =>
            if isRateMsg e then
              (⟨st.cache, st.total + 1, st.cachedN, st.gen, st.calls + 1⟩, true)
            else
              sceneStepList synth enc vm aI (sI + 1) rest
                ⟨st.cache, st.total + 1, st.cachedN, st.gen, st.calls + 1⟩

/-- Outer loop over acts; the for-else/`break` pair propagates the abort
out of the nested loops (src/generate_library.py lines 100-134). -/
def actStepList (synth : Synth) (enc : String → String)
    (vm : List (String × String)) :
    Nat → List Act → WalkSt → WalkSt × Bool
  | _, [], st => (st, false)
  | aI, act :: rest, st =>
    match sceneStepList synth enc vm aI 0 act.scenes st with
    | (st', true) => (st', true)
    | (st', false) => actStepList synth enc vm (aI + 1) rest st'

structure AudioRun where
  episode : Episode
  generated : Nat
  st : WalkSt
  aborted : Bool
deriving Repr, DecidableEq

/-- `generate_audio_for_episode` (src/generate_library.py lines 91-145):
walk all acts and scenes, then assign the filled cache back into
`episode["audio_cache"]`.  `generated` is the function's return value;
`aborted` is the explicit form of the nested `break`. -/
def generate_audio_for_episode (synth : Synth) (enc : String → String)
    (ep : Episode) : AudioRun :=
  match actStepList synth enc ep.voice_map 0 ep.acts
    ⟨ep.audio_cache, 0, 0, 0, 0⟩ with
  | (st, ab) => ⟨{ ep with audio_cache := st.cache }, st.gen, st, ab⟩

/-- The persisting write at the end of the audio pass
(src/generate_library.py lines 139-140, `open(path, "w")`). -/
def generate_audio_and_save (synth : Synth) (enc : String → String)
    (store : Store) (ep : Episode) (slug : String) : AudioRun × Store :=
  (generate_audio_for_episode synth enc ep,
    storeSet store slug (generate_audio_for_episode synth enc ep).episode)

/-! #### The eligible-cue view of the walk

`episodeCues` lists, in walk order, the audio-eligible scenes with the
resolutions the specification describes: a scene is eligible exactly when
its type is dialogue or explanation and its text is non-empty; the voice
is resolved through `voice_map` with default "troy" for an unmapped
character; the emotion defaults to "neutral" when unset. -/

structure Cue where
  key : String
  text : String
  voice : String
  emotion : String
deriving Repr, DecidableEq

/-- Audio eligibility as the specification words it. -/
def eligible (sc : Scene) : Bool :=
  (sc.type = some "dialogue" || sc.type = some "explanation") &&
    sc.text.getD "" ≠ ""

/-- The resolved synthesis request for an eligible scene. -/
def cueOf (vm : List (String × String)) (aI sI : Nat) (sc : Scene) : Cue :=
  ⟨sceneKey aI sI, sc.text.getD "",
    (vm.lookup (sc.character.getD "")).getD "troy",
    sc.emotion.getD "neutral"⟩

def sceneCues (vm : List (String × String)) (aI : Nat) :
    Nat → List Scene → List Cue
  | _, [] => []
  | sI, sc :: rest =>
    (if eligible sc then [cueOf vm aI sI sc] else []) ++
      sceneCues vm aI (sI + 1) rest

def actCues (vm : List (String × String)) : Nat → List Act → List Cue
  | _, [] => []
  | aI, act :: rest =>
    sceneCues vm aI 0 act.scenes ++ actCues vm (aI + 1) rest

def episodeCues (ep : Episode) : List Cue := actCues ep.voice_map 0 ep.acts

/-- Sequential processing of the eligible cues: skip a cached key,
synthesize and append an uncached one, skip-and-continue on an ordinary
failure, abort on a rate/quota failure. -/
def processCues (synth : Synth) (enc : String → String) :
    List Cue → WalkSt → WalkSt × Bool
  | [], st => (st, false)
  | c :: rest, st =>
    if ((st.cache.lookup c.key).isSome) then
      processCues synth enc rest
        ⟨st.cache, st.total + 1, st.cachedN + 1, st.gen, st.calls⟩
    else
      match synth st.calls c.text c.voice c.emotion with
      | .ok audio =>
        processCues synth enc rest
          ⟨st.cache ++ [(c.key, enc audio)], st.total + 1,
            st.cachedN, st.gen + 1, st.calls + 1⟩
      | .error e =>
        if isRateMsg e then
          (⟨st.cache, st.total + 1, st.cachedN, st.gen, st.calls + 1⟩, true)
        else
          processCues synth enc rest
            ⟨st.cache, st.total + 1, st.cachedN, st.gen, st.calls + 1⟩

/-! #### Equivalence of the walk with the eligible-cue processing -/

theorem processCues_append (synth : Synth) (enc : String → String)
    (l₁ l₂ : List Cue) (st : WalkSt) :
    processCues synth enc (l₁ ++ l₂) st =
      (match processCues synth enc l₁ st with
       | (st', true) => (st', true)
       | (st', false) => processCues synth enc l₂ st') := by
  induction l₁ generalizing st with
  | nil => rfl
  | cons c rest ih =>
    simp only [List.cons_append, processCues]
    by_cases hk : ((st.cache.lookup c.key).isSome : Bool) = true
    · rw [if_pos hk, if_pos hk]
      exact ih _
    · rw [if_neg hk, if_neg hk]
      cases synth st.calls c.text c.voice c.emotion with
      | ok audio => exact ih _
      | error e =>
        cases hr : isRateMsg e with
        | true =>
          simp only [hr, if_true]
        | false =>
          simp only [hr, Bool.false_eq_true, if_false]
          exact ih _

theorem sceneStepList_eq_processCues (synth : Synth) (enc : String → String)
    (vm : List (String × String)) (aI : Nat) (scenes : List Scene) :
    ∀ (sI : Nat) (st : WalkSt),
      sceneStepList synth enc vm aI sI scenes st =
        processCues synth enc (sceneCues vm aI sI scenes) st := by
  induction scenes with
  | nil =>
    intro sI st
    rfl
  | cons sc rest ih =>
    intro sI st
    by_cases he : eligible sc = true
    · have htype : (sc.type = some "dialogue" ∨ sc.type = some "explanation") := by
        simp only [eligible, Bool.and_eq_true, Bool.or_eq_true,
          decide_eq_true_eq] at he
        exact he.1
      obtain ⟨txt, htxt, hne⟩ :
          ∃ txt, sc.text = some txt ∧ txt ≠ "" := by
        simp only [eligible, Bool.and_eq_true, bne_iff_ne, ne_eq,
          decide_eq_true_eq] at he
        cases hx : sc.text with
        | none =>
          rw [hx] at he
          simp at he
        | some t =>
          rw [hx] at he
          refine ⟨t, rfl, ?_⟩
          simpa using he.2
      simp only [sceneCues, he, if_true, List.singleton_append]
      simp only [sceneStepList, htype, not_true, if_false, htxt]
      have hget : sc.text.getD "" = txt := by
        rw [htxt]
        rfl
      cases hx2 : txt with
      | mk l =>
        cases l with
        | nil =>
          exact absurd (by rw [hx2]) hne
        | cons a as =>
          simp only [processCues, cueOf, hget, hx2]
          simp only [ih]
    · simp only [sceneCues, he, if_false, List.nil_append]
      by_cases htype : (sc.type = some "dialogue" ∨ sc.type = some "explanation")
      · have htxt : sc.text.getD "" = "" := by
          by_contra hx
          apply he
          simp only [eligible, Bool.and_eq_true, Bool.or_eq_true,
            decide_eq_true_eq]
          constructor
          · exact htype
          · simpa using hx
        cases hx : sc.text with
        | none =>
          simp only [sceneStepList, htype, not_true, if_false, hx]
          exact ih (sI + 1) st
        | some t =>
          have ht : t = "" := by
            rw [hx] at htxt
            exact htxt
          subst ht
          simp only [sceneStepList, htype, not_true, if_false, hx]
          exact ih (sI + 1) st
      · simp only [sceneStepList, htype, not_false_eq_true, if_true]
        exact ih (sI + 1) st

theorem actStepList_eq_processCues (synth : Synth) (enc : String → String)
    (vm : List (String × String)) (acts : List Act) :
    ∀ (aI : Nat) (st : WalkSt),
      actStepList synth enc vm aI acts st =
        processCues synth enc (actCues vm aI acts) st := by
  induction acts with
  | nil =>
    intro aI st
    rfl
  | cons act rest ih =>
    intro aI st
    simp only [actStepList, actCues]
    rw [processCues_append, sceneStepList_eq_processCues]
    cases processCues synth enc (sceneCues vm aI 0 act.scenes) st with
    | mk st' ab =>
      cases ab with
      | true => rfl
      | false =>
        simp only
        exact ih (aI + 1) st'

/-- The audio pass computed through the eligible-cue view. -/
theorem generate_audio_eq (synth : Synth) (enc : String → String)
    (ep : Episode) :
    generate_audio_for_episode synth enc ep =
      ⟨{ ep with audio_cache := (processCues synth enc (episodeCues ep)
            ⟨ep.audio_cache, 0, 0, 0, 0⟩).1.cache },
        (processCues synth enc (episodeCues ep)
          ⟨ep.audio_cache, 0, 0, 0, 0⟩).1.gen,
        (processCues synth enc (episodeCues ep) ⟨ep.audio_cache, 0, 0, 0, 0⟩).1,
        (processCues synth enc (episodeCues ep)
          ⟨ep.audio_cache, 0, 0, 0, 0⟩).2⟩ := by
  unfold generate_audio_for_episode episodeCues
  rw [actStepList_eq_processCues]

/--
C8.  The audio walk visits acts in order and scenes in order within each
act; a scene is audio-eligible exactly when its type is dialogue or
explanation and it carries non-empty text; each eligible not-yet-cached
scene is synthesized with the voice resolved through `voice_map` (default
voice "troy" for an unmapped character) and the emotion defaulting to
"neutral" when unset.  Formally: `generate_audio_for_episode` equals the
sequential processing of `episodeCues`, the in-order list of eligible
scenes with exactly those resolutions applied.
-/
theorem c8_walk_characterisation (synth : Synth) (enc : String → String)
    (ep : Episode) :
    generate_audio_for_episode synth enc ep =
      ⟨{ ep with audio_cache := (processCues synth enc (episodeCues ep)
            ⟨ep.audio_cache, 0, 0, 0, 0⟩).1.cache },
        (processCues synth enc (episodeCues ep)
          ⟨ep.audio_cache, 0, 0, 0, 0⟩).1.gen,
        (processCues synth enc (episodeCues ep) ⟨ep.audio_cache, 0, 0, 0, 0⟩).1,
        (processCues synth enc (episodeCues ep)
          ⟨ep.audio_cache, 0, 0, 0, 0⟩).2⟩ :=
  generate_audio_eq synth enc ep

/-! #### Append-only, coverage and idempotence lemmas -/

theorem processCues_lookup_mono (synth : Synth) (enc : String → String)
    (l : List Cue) :
    ∀ (st : WalkSt) (k v : String), st.cache.lookup k = some v →
      (processCues synth enc l st).1.cache.lookup k = some v := by
  induction l with
  | nil =>
    intro st k v h
    exact h
  | cons c rest ih =>
    intro st k v h
    simp only [processCues]
    by_cases hk : ((st.cache.lookup c.key).isSome : Bool) = true
    · rw [if_pos hk]
      exact ih _ k v h
    · rw [if_neg hk]
      cases hsy : synth st.calls c.text c.voice c.emotion with
      | ok audio =>
        refine ih _ k v ?_
        show (st.cache ++ [(c.key, enc audio)]).lookup k = some v
        rw [lookup_append, h]
      | error e =>
        cases hr : isRateMsg e with
        | true =>
          simp only [hr, if_true]
          exact h
        | false =>
          simp only [hr, Bool.false_eq_true, if_false]
          exact ih _ k v h

theorem processCues_covered (synth : Synth) (enc : String → String)
    (l : List Cue) :
    ∀ st : WalkSt, (∀ c ∈ l, (st.cache.lookup c.key).isSome = true) →
      (processCues synth enc l st).1.cache = st.cache ∧
      (processCues synth enc l st).1.gen = st.gen ∧
      (processCues synth enc l st).2 = false := by
  induction l with
  | nil =>
    intro st _
    exact ⟨rfl, rfl, rfl⟩
  | cons c rest ih =>
    intro st h
    have hc := h c (List.mem_cons_self _ _)
    simp only [processCues]
    rw [if_pos hc]
    exact ih _ (fun c' hc' => h c' (List.mem_cons_of_mem _ hc'))

/-- Under a deterministic adapter, running the cue processing again from
the cache produced by a previous run inserts nothing, generates nothing,
and aborts exactly where the previous run did. -/
theorem processCues_rerun (synth : Synth) (enc : String → String)
    (hdet : ∀ i j t v e, synth i t v e = synth j t v e) (l : List Cue) :
    ∀ (st₁ st₂ : WalkSt), st₂.cache = (processCues synth enc l st₁).1.cache →
      (processCues synth enc l st₂).1.cache = st₂.cache ∧
      (processCues synth enc l st₂).1.gen = st₂.gen ∧
      (processCues synth enc l st₂).2 = (processCues synth enc l st₁).2 := by
  induction l with
  | nil =>
    intro st₁ st₂ h
    exact ⟨rfl, rfl, rfl⟩
  | cons c rest ih =>
    intro st₁ st₂ h
    by_cases hk1 : ((st₁.cache.lookup c.key).isSome : Bool) = true
    · have h' : st₂.cache = (processCues synth enc rest
          ⟨st₁.cache, st₁.total + 1, st₁.cachedN + 1, st₁.gen,
            st₁.calls⟩).1.cache := by
        rw [h]
        simp only [processCues]
        rw [if_pos hk1]
      obtain ⟨v, hv⟩ := Option.isSome_iff_exists.1 hk1
      have hv2 : st₂.cache.lookup c.key = some v := by
        rw [h']
        exact processCues_lookup_mono synth enc rest _ c.key v hv
      have hk2 : (st₂.cache.lookup c.key).isSome = true := by
        rw [hv2]
        rfl
      have hrec := ih
        ⟨st₁.cache, st₁.total + 1, st₁.cachedN + 1, st₁.gen, st₁.calls⟩
        ⟨st₂.cache, st₂.total + 1, st₂.cachedN + 1, st₂.gen, st₂.calls⟩ h'
      refine ⟨?_, ?_, ?_⟩
      · simp only [processCues]
        rw [if_pos hk2]
        exact hrec.1
      · simp only [processCues]
        rw [if_pos hk2]
        exact hrec.2.1
      · simp only [processCues]
        rw [if_pos hk2, if_pos hk1]
        exact hrec.2.2
    · have hnone1 : st₁.cache.lookup c.key = none := by
        cases hq : st₁.cache.lookup c.key with
        | none => rfl
        | some w =>
          rw [hq] at hk1
          exact absurd rfl hk1
      cases hsy1 : synth st₁.calls c.text c.voice c.emotion with
      | ok audio =>
        have h' : st₂.cache = (processCues synth enc rest
            ⟨st₁.cache ++ [(c.key, enc audio)], st₁.total + 1, st₁.cachedN,
              st₁.gen + 1, st₁.calls + 1⟩).1.cache := by
          rw [h]
          simp only [processCues]
          rw [if_neg hk1]
          simp only [hsy1]
        have hv2 : st₂.cache.lookup c.key = some (enc audio) := by
          rw [h']
          refine processCues_lookup_mono synth enc rest _ c.key _ ?_
          show (st₁.cache ++ [(c.key, enc audio)]).lookup c.key =
            some (enc audio)
          rw [lookup_append, hnone1]
          simp [List.lookup]
        have hk2 : (st₂.cache.lookup c.key).isSome = true := by
          rw [hv2]
          rfl
        have hrec := ih
          ⟨st₁.cache ++ [(c.key, enc audio)], st₁.total + 1, st₁.cachedN,
            st₁.gen + 1, st₁.calls + 1⟩
          ⟨st₂.cache, st₂.total + 1, st₂.cachedN + 1, st₂.gen, st₂.calls⟩ h'
        refine ⟨?_, ?_, ?_⟩
        · simp only [processCues]
          rw [if_pos hk2]
          exact hrec.1
        · simp only [processCues]
          rw [if_pos hk2]
          exact hrec.2.1
        · simp only [processCues]
          rw [if_pos hk2, if_neg hk1]
          simp only [hsy1]
          exact hrec.2.2
      | error e =>
        cases hr : isRateMsg e with
        | true =>
          have h' : st₂.cache = st₁.cache := by
            rw [h]
            simp only [processCues]
            rw [if_neg hk1]
            simp only [hsy1, hr, if_true]
          have hk2 : ¬ ((st₂.cache.lookup c.key).isSome : Bool) = true := by
            rw [h']
            exact hk1
          have hsy2 : synth st₂.calls c.text c.voice c.emotion =
              .error e := by
            rw [hdet st₂.calls st₁.calls c.text c.voice c.emotion, hsy1]
          refine ⟨?_, ?_, ?_⟩
          · simp only [processCues]
            rw [if_neg hk2]
            simp only [hsy2, hr, if_true]
          · simp only [processCues]
            rw [if_neg hk2]
            simp only [hsy2, hr, if_true]
          · simp only [processCues]
            rw [if_neg hk2, if_neg hk1]
            simp only [hsy1, hsy2, hr, if_true]
        | false =>
          have h' : st₂.cache = (processCues synth enc rest
              ⟨st₁.cache, st₁.total + 1, st₁.cachedN, st₁.gen,
                st₁.calls + 1⟩).1.cache := by
            rw [h]
            simp only [processCues]
            rw [if_neg hk1]
            simp only [hsy1, hr, Bool.false_eq_true, if_false]
          have hsy2 : synth st₂.calls c.text c.voice c.emotion =
              .error e := by
            rw [hdet st₂.calls st₁.calls c.text c.voice c.emotion, hsy1]
          by_cases hk2 : ((st₂.cache.lookup c.key).isSome : Bool) = true
          · have hrec := ih
              ⟨st₁.cache, st₁.total + 1, st₁.cachedN, st₁.gen, st₁.calls + 1⟩
              ⟨st₂.cache, st₂.total + 1, st₂.cachedN + 1, st₂.gen,
                st₂.calls⟩ h'
            refine ⟨?_, ?_, ?_⟩
            · simp only [processCues]
              rw [if_pos hk2]
              exact hrec.1
            · simp only [processCues]
              rw [if_pos hk2]
              exact hrec.2.1
            · simp only [processCues]
              rw [if_pos hk2, if_neg hk1]
              simp only [hsy1, hr, Bool.false_eq_true, if_false]
              exact hrec.2.2
          · have hrec := ih
              ⟨st₁.cache, st₁.total + 1, st₁.cachedN, st₁.gen, st₁.calls + 1⟩
              ⟨st₂.cache, st₂.total + 1, st₂.cachedN, st₂.gen,
                st₂.calls + 1⟩ h'
            refine ⟨?_, ?_, ?_⟩
            · simp only [processCues]
              rw [if_neg hk2]
              simp only [hsy2, hr, Bool.false_eq_true, if_false]
              exact hrec.1
            · simp only [processCues]
              rw [if_neg hk2]
              simp only [hsy2, hr, Bool.false_eq_true, if_false]
              exact hrec.2.1
            · simp only [processCues]
              rw [if_neg hk2, if_neg hk1]
              simp only [hsy1, hsy2, hr, Bool.false_eq_true, if_false]
              exact hrec.2.2

/--
C3.  Audio-cache append-only write paths and idempotence of the audio
pass, for a deterministic synthesis adapter (one whose outcome depends
only on the request, not on the call count):
  (a) the walk never alters an entry already present under a scene-key;
  (b) the `api_tts` cache write path leaves the store untouched whenever
      the scene-key is already cached;
  (c) when the cache already covers all eligible scenes the pass is a
      no-op: the `audio_cache` is unchanged and the reported
      generated-count is 0;
  (d) running the pass a second time on the episode produced by the first
      run yields an identical `audio_cache` and a generated-count of 0.
-/
theorem c3_audio_cache_idempotence (synth : Synth) (enc : String → String)
    (tenv : TtsEnv) (ep : Episode)
    (hdet : ∀ i j t v e, synth i t v e = synth j t v e) :
    (∀ k v, ep.audio_cache.lookup k = some v →
      (generate_audio_for_episode synth enc ep).episode.audio_cache.lookup k
        = some v) ∧
    (∀ store slug key audio ep0, loadEpisode store slug = some ep0 →
      (ep0.audio_cache.lookup key).isSome = true →
      ttsCacheWrite tenv store slug key audio = store) ∧
    ((∀ c ∈ episodeCues ep, (ep.audio_cache.lookup c.key).isSome = true) →
      (generate_audio_for_episode synth enc ep).episode.audio_cache =
        ep.audio_cache ∧
      (generate_audio_for_episode synth enc ep).generated = 0) ∧
    ((generate_audio_for_episode synth enc
        (generate_audio_for_episode synth enc ep).episode).episode.audio_cache
        = (generate_audio_for_episode synth enc ep).episode.audio_cache ∧
      (generate_audio_for_episode synth enc
        (generate_audio_for_episode synth enc ep).episode).generated = 0) := by
  refine ⟨?_, ?_, ?_, ?_⟩
  · intro k v hv
    rw [generate_audio_eq]
    exact processCues_lookup_mono synth enc (episodeCues ep) _ k v hv
  · intro store slug key audio ep0 hload hsome
    unfold ttsCacheWrite
    by_cases hcond : slug ≠ "" ∧ key ≠ "" ∧ audio ≠ ""
    · rw [if_pos hcond]
      simp only [hload]
      rw [if_pos hsome]
    · rw [if_neg hcond]
  · intro hcov
    have hc := processCues_covered synth enc (episodeCues ep)
      ⟨ep.audio_cache, 0, 0, 0, 0⟩ hcov
    rw [generate_audio_eq]
    exact ⟨hc.1, hc.2.1⟩
  · have hrerun := processCues_rerun synth enc hdet (episodeCues ep)
      ⟨ep.audio_cache, 0, 0, 0, 0⟩
      ⟨(processCues synth enc (episodeCues ep)
          ⟨ep.audio_cache, 0, 0, 0, 0⟩).1.cache, 0, 0, 0, 0⟩ rfl
    constructor
    · rw [generate_audio_eq synth enc
        (generate_audio_for_episode synth enc ep).episode,
        generate_audio_eq synth enc ep]
      exact hrerun.1
    · rw [generate_audio_eq synth enc
        (generate_audio_for_episode synth enc ep).episode,
        generate_audio_eq synth enc ep]
      exact hrerun.2.1

/-- Concrete one-scene episode for the C3 witness. -/
def c3Ep : Episode :=
  { acts := [{ scenes := [{ type := some "dialogue", character := some "nova", emotion := some "excited", text := some "hi" }] }],
    voice_map := [("nova", "v1")] }

/-- Deterministic always-succeeding adapter for the C3 witness. -/
def c3Synth : Synth := fun _ _ _ _ => Except.ok "A"

/-- Witness for C3 at a concrete one-scene episode and a deterministic
always-succeeding adapter. -/
theorem c3_audio_cache_idempotence_witness :
    (∀ i j t v e, c3Synth i t v e = c3Synth j t v e) ∧
    ((∀ k v, c3Ep.audio_cache.lookup k = some v →
      (generate_audio_for_episode c3Synth (fun a => a)
        c3Ep).episode.audio_cache.lookup k = some v) ∧
    (∀ store slug key audio ep0, loadEpisode store slug = some ep0 →
      (ep0.audio_cache.lookup key).isSome = true →
      ttsCacheWrite (⟨fun _ _ _ => .ok "x", fun a => a⟩ : TtsEnv)
        store slug key audio = store) ∧
    ((∀ c ∈ episodeCues c3Ep,
        (c3Ep.audio_cache.lookup c.key).isSome = true) →
      (generate_audio_for_episode c3Synth (fun a => a)
        c3Ep).episode.audio_cache = c3Ep.audio_cache ∧
      (generate_audio_for_episode c3Synth (fun a => a) c3Ep).generated = 0) ∧
    ((generate_audio_for_episode c3Synth (fun a => a)
        (generate_audio_for_episode c3Synth (fun a => a)
          c3Ep).episode).episode.audio_cache
        = (generate_audio_for_episode c3Synth (fun a => a)
            c3Ep).episode.audio_cache ∧
      (generate_audio_for_episode c3Synth (fun a => a)
        (generate_audio_for_episode c3Synth (fun a => a)
          c3Ep).episode).generated = 0)) :=
  ⟨fun _ _ _ _ _ => rfl,
    c3_audio_cache_idempotence c3Synth (fun a => a)
      (⟨fun _ _ _ => .ok "x", fun a => a⟩ : TtsEnv) c3Ep
      (fun _ _ _ _ _ => rfl)⟩

/-! #### Distinctness of the scene keys along the walk -/

theorem sceneCues_key_mem (vm : List (String × String)) (aI : Nat)
    (scenes : List Scene) :
    ∀ (sI : Nat) (c : Cue), c ∈ sceneCues vm aI sI scenes →
      ∃ j, j < scenes.length ∧ c.key = sceneKey aI (sI + j) := by
  induction scenes with
  | nil =>
    intro sI c hc
    simp [sceneCues] at hc
  | cons sc rest ih =>
    intro sI c hc
    simp only [sceneCues] at hc
    rcases List.mem_append.1 hc with h' | h'
    · by_cases he : eligible sc = true
      · rw [if_pos he] at h'
        simp only [List.mem_singleton] at h'
        subst h'
        exact ⟨0, by simp, by simp [cueOf]⟩
      · rw [if_neg he] at h'
        simp at h'
    · obtain ⟨j, hj, hk⟩ := ih (sI + 1) c h'
      refine ⟨j + 1, by simp; omega, ?_⟩
      rw [hk]
      congr 1
      omega

theorem sceneCues_keys_nodup (vm : List (String × String)) (aI : Nat)
    (scenes : List Scene) :
    ∀ sI : Nat, ((sceneCues vm aI sI scenes).map Cue.key).Nodup := by
  induction scenes with
  | nil =>
    intro sI
    simp [sceneCues]
  | cons sc rest ih =>
    intro sI
    simp only [sceneCues]
    by_cases he : eligible sc = true
    · rw [if_pos he]
      simp only [List.singleton_append, List.map_cons, List.nodup_cons]
      refine ⟨?_, ih (sI + 1)⟩
      intro hmem
      rcases List.mem_map.1 hmem with ⟨c, hc, hkey⟩
      obtain ⟨j, _, hk⟩ := sceneCues_key_mem vm aI rest (sI + 1) c hc
      rw [hk] at hkey
      have := sceneKey_inj aI (sI + 1 + j) aI sI hkey
      omega
    · rw [if_neg he]
      simp only [List.nil_append]
      exact ih (sI + 1)

theorem actCues_key_mem (vm : List (String × String)) (acts : List Act) :
    ∀ (aI : Nat) (c : Cue), c ∈ actCues vm aI acts →
      ∃ a s, aI ≤ a ∧ c.key = sceneKey a s := by
  induction acts with
  | nil =>
    intro aI c hc
    simp [actCues] at hc
  | cons act rest ih =>
    intro aI c hc
    simp only [actCues] at hc
    rcases List.mem_append.1 hc with h' | h'
    · obtain ⟨j, _, hk⟩ := sceneCues_key_mem vm aI act.scenes 0 c h'
      exact ⟨aI, 0 + j, le_refl _, hk⟩
    · obtain ⟨a, t, ha, hk⟩ := ih (aI + 1) c h'
      exact ⟨a, t, by omega, hk⟩

theorem actCues_keys_nodup (vm : List (String × String)) (acts : List Act) :
    ∀ aI : Nat, ((actCues vm aI acts).map Cue.key).Nodup := by
  induction acts with
  | nil =>
    intro aI
    simp [actCues]
  | cons act rest ih =>
    intro aI
    simp only [actCues, List.map_append]
    rw [List.nodup_append]
    refine ⟨sceneCues_keys_nodup vm aI act.scenes 0, ih (aI + 1), ?_⟩
    intro k hk1 hk2
    rcases List.mem_map.1 hk1 with ⟨c, hc, hkc⟩
    rcases List.mem_map.1 hk2 with ⟨c', hc', hkc'⟩
    obtain ⟨j, _, hkey⟩ := sceneCues_key_mem vm aI act.scenes 0 c hc
    obtain ⟨a, s, ha, hkey'⟩ := actCues_key_mem vm rest (aI + 1) c' hc'
    rw [← hkc] at hkc'
    rw [hkey, hkey'] at hkc'
    have := sceneKey_inj a s aI (0 + j) hkc'
    omega

/-- Every scene key appears at most once among an episode's eligible
cues. -/
theorem episodeCues_keys_nodup (ep : Episode) :
    ((episodeCues ep).map Cue.key).Nodup :=
  actCues_keys_nodup ep.voice_map ep.acts 0

/-! #### Failure policy of the walk -/

theorem processCues_step_ok (synth : Synth) (enc : String → String)
    (c : Cue) (rest : List Cue) (st : WalkSt) (b : String)
    (hnone : st.cache.lookup c.key = none)
    (hok : synth st.calls c.text c.voice c.emotion = .ok b) :
    processCues synth enc (c :: rest) st =
      processCues synth enc rest
        ⟨st.cache ++ [(c.key, enc b)], st.total + 1, st.cachedN,
          st.gen + 1, st.calls + 1⟩ := by
  simp only [processCues]
  rw [if_neg (by rw [hnone]; simp)]
  simp only [hok]

theorem processCues_step_rate (synth : Synth) (enc : String → String)
    (c : Cue) (rest : List Cue) (st : WalkSt) (e : String)
    (hnone : st.cache.lookup c.key = none)
    (herr : synth st.calls c.text c.voice c.emotion = .error e)
    (hrate : isRateMsg e = true) :
    processCues synth enc (c :: rest) st =
      (⟨st.cache, st.total + 1, st.cachedN, st.gen, st.calls + 1⟩, true) := by
  simp only [processCues]
  rw [if_neg (by rw [hnone]; simp)]
  simp only [herr, hrate, if_true]

/--
C4.  Partial-failure policy of the audio walk:
  (a) at an eligible, not-yet-cached scene, a synthesis failure whose
      message is not rate/quota-classified skips only that scene (nothing
      is cached for it) and the walk continues with the next scene,
      whereas a rate/quota-classified failure aborts the entire walk at
      that point;
  (b) in particular, on an episode with an empty cache and at least three
      eligible scenes, an adapter that succeeds on its first two calls and
      fails rate-limited on the third makes the pass generate exactly 2
      entries, abort, and leave the 3rd and every later eligible scene
      absent from `audio_cache`.
-/
theorem c4_failure_policy (synth : Synth) (enc : String → String) :
    (∀ (vm : List (String × String)) (aI sI : Nat) (sc : Scene)
        (rest : List Scene) (st : WalkSt) (txt e : String),
      (sc.type = some "dialogue" ∨ sc.type = some "explanation") →
      sc.text = some txt → txt ≠ "" →
      st.cache.lookup (sceneKey aI sI) = none →
      synth st.calls txt ((vm.lookup (sc.character.getD "")).getD "troy")
          (sc.emotion.getD "neutral") = .error e →
      (isRateMsg e = false →
        sceneStepList synth enc vm aI sI (sc :: rest) st =
          sceneStepList synth enc vm aI (sI + 1) rest
            ⟨st.cache, st.total + 1, st.cachedN, st.gen, st.calls + 1⟩) ∧
      (isRateMsg e = true →
        sceneStepList synth enc vm aI sI (sc :: rest) st =
          (⟨st.cache, st.total + 1, st.cachedN, st.gen, st.calls + 1⟩,
            true))) ∧
    (∀ (ep : Episode) (c₀ c₁ c₂ : Cue) (rest : List Cue) (b₀ b₁ err : String),
      ep.audio_cache = [] →
      episodeCues ep = c₀ :: c₁ :: c₂ :: rest →
      synth 0 c₀.text c₀.voice c₀.emotion = .ok b₀ →
      synth 1 c₁.text c₁.voice c₁.emotion = .ok b₁ →
      synth 2 c₂.text c₂.voice c₂.emotion = .error err →
      isRateMsg err = true →
      (generate_audio_for_episode synth enc ep).generated = 2 ∧
      (generate_audio_for_episode synth enc ep).aborted = true ∧
      (generate_audio_for_episode synth enc ep).episode.audio_cache =
        [(c₀.key, enc b₀), (c₁.key, enc b₁)] ∧
      (∀ c ∈ c₂ :: rest,
        (generate_audio_for_episode synth enc ep).episode.audio_cache.lookup
          c.key = none)) := by
  constructor
  · intro vm aI sI sc rest st txt e htype htxt hne hnone herr
    have hstep : sceneStepList synth enc vm aI sI (sc :: rest) st =
        (if isRateMsg e = true then
          (⟨st.cache, st.total + 1, st.cachedN, st.gen, st.calls + 1⟩, true)
        else sceneStepList synth enc vm aI (sI + 1) rest
          ⟨st.cache, st.total + 1, st.cachedN, st.gen, st.calls + 1⟩) := by
      simp only [sceneStepList]
      rw [if_neg (not_not_intro htype)]
      simp only [htxt]
      cases hx2 : txt with
      | mk l =>
        cases l with
        | nil => exact absurd (by rw [hx2]) hne
        | cons a as =>
          rw [← hx2]
          rw [if_neg (by rw [hnone]; simp)]
          simp only [herr]
    constructor
    · intro hr
      rw [hstep, if_neg (by rw [hr]; simp)]
    · intro hr
      rw [hstep, if_pos hr]
  · intro ep c₀ c₁ c₂ rest b₀ b₁ err hcache hcues h0 h1 h2 hrate
    have hnd := episodeCues_keys_nodup ep
    rw [hcues] at hnd
    simp only [List.map_cons] at hnd
    rcases List.nodup_cons.1 hnd with ⟨hk0, hnd1⟩
    rcases List.nodup_cons.1 hnd1 with ⟨hk1, _⟩
    have h01 : (c₁.key == c₀.key) = false := by
      simp only [beq_eq_false_iff_ne, ne_eq]
      intro hq
      exact hk0 (by rw [← hq]; exact List.mem_cons_self _ _)
    have h02 : (c₂.key == c₀.key) = false := by
      simp only [beq_eq_false_iff_ne, ne_eq]
      intro hq
      exact hk0 (by
        rw [← hq]
        exact List.mem_cons_of_mem _ (List.mem_cons_self _ _))
    have h12 : (c₂.key == c₁.key) = false := by
      simp only [beq_eq_false_iff_ne, ne_eq]
      intro hq
      exact hk1 (by rw [← hq]; exact List.mem_cons_self _ _)
    have hs1 : processCues synth enc (c₀ :: c₁ :: c₂ :: rest)
        ⟨[], 0, 0, 0, 0⟩ =
        processCues synth enc (c₁ :: c₂ :: rest)
          ⟨[(c₀.key, enc b₀)], 1, 0, 1, 1⟩ := by
      rw [processCues_step_ok synth enc c₀ (c₁ :: c₂ :: rest)
        ⟨[], 0, 0, 0, 0⟩ b₀ rfl h0]
      rfl
    have hs2 : processCues synth enc (c₁ :: c₂ :: rest)
        ⟨[(c₀.key, enc b₀)], 1, 0, 1, 1⟩ =
        processCues synth enc (c₂ :: rest)
          ⟨[(c₀.key, enc b₀), (c₁.key, enc b₁)], 2, 0, 2, 2⟩ := by
      rw [processCues_step_ok synth enc c₁ (c₂ :: rest)
        ⟨[(c₀.key, enc b₀)], 1, 0, 1, 1⟩ b₁
        (by simp only [List.lookup, h01]) h1]
      rfl
    have hs3 : processCues synth enc (c₂ :: rest)
        ⟨[(c₀.key, enc b₀), (c₁.key, enc b₁)], 2, 0, 2, 2⟩ =
        (⟨[(c₀.key, enc b₀), (c₁.key, enc b₁)], 3, 0, 2, 3⟩, true) := by
      rw [processCues_step_rate synth enc c₂ rest
        ⟨[(c₀.key, enc b₀), (c₁.key, enc b₁)], 2, 0, 2, 2⟩ err
        (by simp only [List.lookup, h02, h12]) h2 hrate]
    have hrun : processCues synth enc (episodeCues ep)
        ⟨ep.audio_cache, 0, 0, 0, 0⟩ =
        (⟨[(c₀.key, enc b₀), (c₁.key, enc b₁)], 3, 0, 2, 3⟩, true) := by
      rw [hcues, hcache, hs1, hs2, hs3]
    refine ⟨?_, ?_, ?_, ?_⟩
    · rw [generate_audio_eq, hrun]
    · rw [generate_audio_eq, hrun]
    · rw [generate_audio_eq, hrun]
    · intro c hc
      rw [generate_audio_eq, hrun]
      have hc0 : (c.key == c₀.key) = false := by
        simp only [beq_eq_false_iff_ne, ne_eq]
        intro hq
        refine hk0 ?_
        rw [← hq]
        rcases List.mem_cons.1 hc with h' | h'
        · subst h'
          exact List.mem_cons_of_mem _ (List.mem_cons_self _ _)
        · exact List.mem_cons_of_mem _ (List.mem_cons_of_mem _
            (List.mem_map_of_mem _ h'))
      have hc1 : (c.key == c₁.key) = false := by
        simp only [beq_eq_false_iff_ne, ne_eq]
        intro hq
        refine hk1 ?_
        rw [← hq]
        rcases List.mem_cons.1 hc with h' | h'
        · subst h'
          exact List.mem_cons_self _ _
        · exact List.mem_cons_of_mem _ (List.mem_map_of_mem _ h')
      simp only [List.lookup, hc0, hc1]

/-- Concrete three-eligible-scene episode for the C4 witness (a quiz scene
is interleaved to exercise eligibility, and the last scene's character is
unmapped). -/
def c4Ep : Episode :=
  { acts :=
      [{ scenes :=
          [{ type := some "dialogue", character := some "nova", emotion := some "excited", text := some "a" },
           { type := some "quiz" },
           { type := some "explanation", character := some "nova", text := some "b" }] },
       { scenes := [{ type := some "dialogue", text := some "c" }] }],
    voice_map := [("nova", "v1")] }

/-- Adapter for the C4 witness: succeeds on calls 0 and 1, fails
rate-limited on call 2. -/
def c4Synth : Synth := fun i _ _ _ =>
  if i = 0 then .ok "B0"
  else if i = 1 then .ok "B1"
  else .error "429 Too Many Requests: rate limit"

/-- Witness for C4: on `c4Ep` with `c4Synth`, the audio pass generates
exactly 2 entries, aborts, and leaves the remaining eligible scene
uncached. -/
theorem c4_failure_policy_witness :
    c4Ep.audio_cache = [] ∧
    episodeCues c4Ep =
      ⟨sceneKey 0 0, "a", "v1", "excited"⟩ ::
        ⟨sceneKey 0 2, "b", "v1", "neutral"⟩ ::
          ⟨sceneKey 1 0, "c", "troy", "neutral"⟩ :: [] ∧
    c4Synth 0 "a" "v1" "excited" = .ok "B0" ∧
    c4Synth 1 "b" "v1" "neutral" = .ok "B1" ∧
    c4Synth 2 "c" "troy" "neutral" =
      .error "429 Too Many Requests: rate limit" ∧
    isRateMsg "429 Too Many Requests: rate limit" = true ∧
    ((generate_audio_for_episode c4Synth (fun a => a) c4Ep).generated = 2 ∧
      (generate_audio_for_episode c4Synth (fun a => a) c4Ep).aborted = true ∧
      (generate_audio_for_episode c4Synth (fun a => a)
          c4Ep).episode.audio_cache =
        [(sceneKey 0 0, "B0"), (sceneKey 0 2, "B1")] ∧
      (∀ c ∈ (⟨sceneKey 1 0, "c", "troy", "neutral"⟩ : Cue) :: ([] : List Cue),
        (generate_audio_for_episode c4Synth (fun a => a)
            c4Ep).episode.audio_cache.lookup c.key = none)) :=
  ⟨rfl, by decide, rfl, rfl, rfl, by decide,
    (c4_failure_policy c4Synth (fun a => a)).2 c4Ep
      ⟨sceneKey 0 0, "a", "v1", "excited"⟩
      ⟨sceneKey 0 2, "b", "v1", "neutral"⟩
      ⟨sceneKey 1 0, "c", "troy", "neutral"⟩ [] "B0" "B1"
      "429 Too Many Requests: rate limit" rfl (by decide) rfl rfl rfl
      (by decide)⟩

/-- Witness for C5 at a concrete input mixing case, punctuation,
underscores and separator runs. -/
theorem c5_slugify_spec_witness :
    (slugify "  Hello, World___-42!  ").length ≤ 60 ∧
    (∀ c ∈ (slugify "  Hello, World___-42!  ").data,
      (c.isLower = true ∨ c.isDigit = true) ∨ c = '-') ∧
    (∀ c, (slugify "  Hello, World___-42!  ").data.head? = some c →
      c ≠ '-') ∧
    (∀ c, (slugify "  Hello, World___-42!  ").data.getLast? = some c →
      c ≠ '-') ∧
    (slugify "  Hello, World___-42!  ").data.Chain' NoDD :=
  c5_slugify_spec "  Hello, World___-42!  "

/-- Concrete one-scene episode for the C8 witness. -/
def c8Ep : Episode :=
  { acts := [{ scenes := [{ type := some "explanation", character := some "pip", emotion := none, text := some "x" }] }],
    voice_map := [("pip", "v9")] }

/-- Witness for C8 at a concrete episode and adapter. -/
theorem c8_walk_characterisation_witness :
    generate_audio_for_episode (fun _ _ _ _ => Except.ok "A") (fun a => a)
        c8Ep =
      ⟨{ c8Ep with audio_cache := (processCues
            (fun _ _ _ _ => Except.ok "A") (fun a => a) (episodeCues c8Ep)
            ⟨c8Ep.audio_cache, 0, 0, 0, 0⟩).1.cache },
        (processCues (fun _ _ _ _ => Except.ok "A") (fun a => a)
          (episodeCues c8Ep) ⟨c8Ep.audio_cache, 0, 0, 0, 0⟩).1.gen,
        (processCues (fun _ _ _ _ => Except.ok "A") (fun a => a)
          (episodeCues c8Ep) ⟨c8Ep.audio_cache, 0, 0, 0, 0⟩).1,
        (processCues (fun _ _ _ _ => Except.ok "A") (fun a => a)
          (episodeCues c8Ep) ⟨c8Ep.audio_cache, 0, 0, 0, 0⟩).2⟩ :=
  c8_walk_characterisation (fun _ _ _ _ => Except.ok "A") (fun a => a) c8Ep

end Wunderbots
